import Mathlib

/-!
Verification of the SDP description model (`src/description.cpp`) and the
WebSocket facade (`src/websocket.cpp`) of a WebRTC data-channel library.

Strings are embedded as lists of characters (`Str`); the SDP parser, the two
SDP emitters and the WebSocket URL/size handling are translated function by
function from the C++ sources.  `std::string` text is byte text in the source;
here a `Char` stands for one byte of it, with the C-locale character
classification (`isspace`, `toupper`) spelled out explicitly.
-/

set_option maxRecDepth 100000

/-- Character-list strings, standing for `std::string`. -/
abbrev Str := List Char

/-- Literal helper: the character list of a string literal. -/
def str (s : String) : Str := s.toList

/-- C-locale `std::isspace`: space, tab, newline, vertical tab, form feed,
carriage return. -/
def isSpaceC (c : Char) : Bool :=
  c == ' ' || c == '\t' || c == '\n' || c == '\x0b' || c == '\x0c' || c == '\r'

/-- Lower-to-upper case table of C-locale `std::toupper` (ASCII letters). -/
def lowerUpperTable : List (Char × Char) :=
  [('a', 'A'), ('b', 'B'), ('c', 'C'), ('d', 'D'), ('e', 'E'), ('f', 'F'),
   ('g', 'G'), ('h', 'H'), ('i', 'I'), ('j', 'J'), ('k', 'K'), ('l', 'L'),
   ('m', 'M'), ('n', 'N'), ('o', 'O'), ('p', 'P'), ('q', 'Q'), ('r', 'R'),
   ('s', 'S'), ('t', 'T'), ('u', 'U'), ('v', 'V'), ('w', 'W'), ('x', 'X'),
   ('y', 'Y'), ('z', 'Z')]

/-- C-locale `std::toupper` on one character: ASCII lowercase letters are
mapped to uppercase, everything else is unchanged. -/
def toUpperC (c : Char) : Char :=
  match lowerUpperTable.lookup c with
  | some u => u
  | none => c

/-- Uppercasing of a whole string (the source's `std::transform` with
`toupper`). -/
def mapToUpper (s : Str) : Str := s.map toUpperC

/-- The source's `match_prefix`: whether `p` is a prefix of `s`. -/
def matchPfx : Str → Str → Bool
  | [], _ => true
  | _ :: _, [] => false
  | p :: ps, c :: cs => p == c && matchPfx ps cs

/-- Substring test, the source's `line.find(pat) != std::string::npos`:
whether `pat` occurs contiguously. -/
def containsSub (pat : Str) : Str → Bool
  | [] => matchPfx pat []
  | c :: rest => matchPfx pat (c :: rest) || containsSub pat rest

/-- The source's `trim_end`: erase trailing `isspace` characters. -/
def trimEnd (s : Str) : Str := (s.reverse.dropWhile isSpaceC).reverse

/-- Key part of an SDP attribute: the text before the first `:`  (the whole
attribute when it has no colon). -/
def attrKey : Str → Str
  | [] => []
  | c :: r => if c = ':' then [] else c :: attrKey r

/-- Value part of an SDP attribute: the text after the first `:` (empty when
the attribute has no colon), as the source's `attr.substr(separator + 1)`. -/
def attrValue : Str → Str
  | [] => []
  | c :: r => if c = ':' then r else attrValue r

/-- Index of the first occurrence of character `c`, modeling
`std::string::find`. -/
def findIdx (c : Char) : Str → Option Nat
  | [] => none
  | a :: r => if a = c then some 0 else (findIdx c r).map Nat.succ

/-- Split on `'\n'`, keeping empty components; there is always at least one
component. -/
def splitOnNl : Str → List Str
  | [] => [[]]
  | c :: r =>
    if c = '\n' then [] :: splitOnNl r
    else
      match splitOnNl r with
      | [] => [[c]]
      | h :: t => (c :: h) :: t

/-- The lines that the source's `std::getline` loop yields: components split
at `'\n'`, except that an input ending in `'\n'` (or empty) produces no final
empty line. -/
def splitLines (s : Str) : List Str :=
  if (splitOnNl s).getLast? = some [] then (splitOnNl s).dropLast else splitOnNl s

/-- Decimal digit value of a character (`'0'` has value 0, and so on). -/
def digitVal (c : Char) : Nat := c.toNat - 48

/-- Whether a character is a decimal digit. -/
def isDigitC (c : Char) : Bool := 48 ≤ c.toNat && c.toNat ≤ 57

/-- Value of a string of decimal digits, most significant first. -/
def digitsToNat (s : Str) : Nat := s.foldl (fun a c => a * 10 + digitVal c) 0

/-- Decimal digit characters. -/
def digitChar (n : Nat) : Char :=
  match n with
  | 0 => '0' | 1 => '1' | 2 => '2' | 3 => '3' | 4 => '4'
  | 5 => '5' | 6 => '6' | 7 => '7' | 8 => '8' | _ => '9'

/-- Decimal representation of a natural number, as `operator<<` renders the
source's unsigned integers. -/
def toDecimal (n : Nat) : Str :=
  if _h : n < 10 then [digitChar n]
  else toDecimal (n / 10) ++ [digitChar (n % 10)]
decreasing_by omega

/-- Errors thrown while parsing an SDP string (from `std::stoul`). -/
inductive SdpError
  | invalidNumber
  | numberOutOfRange
deriving DecidableEq, Repr

/-- Model of `std::stoul(value)` with base 10 on a 64-bit platform: skip
leading whitespace, accept an optional sign, read at least one decimal digit
(`std::invalid_argument` otherwise, modeled as `invalidNumber`), stop at the
first non-digit; a magnitude not representable in `unsigned long` raises
`std::out_of_range` (`numberOutOfRange`); a leading minus wraps the value
modulo `2 ^ 64`.  `stoulDigits` is the digit-reading part. -/
def stoulDigits (s2 : Str) (neg : Bool) : Except SdpError Nat :=
  if s2.takeWhile isDigitC = [] then .error .invalidNumber
  else if digitsToNat (s2.takeWhile isDigitC) ≥ 18446744073709551616 then
    .error .numberOutOfRange
  else .ok (if neg then
      (18446744073709551616 - digitsToNat (s2.takeWhile isDigitC)) % 18446744073709551616
    else digitsToNat (s2.takeWhile isDigitC))

/-- Dispatch of `stoul` on the optional sign after leading whitespace. -/
def stoul (s : Str) : Except SdpError Nat :=
  match s.dropWhile isSpaceC with
  | [] => stoulDigits [] false
  | c :: r =>
    if c = '-' then stoulDigits r true
    else if c = '+' then stoulDigits r false
    else stoulDigits (c :: r) false

/-- Enumeration `Description::Type`. -/
inductive DType
  | Unspec
  | Offer
  | Answer
deriving DecidableEq, Repr

/-- Enumeration `Description::Role`. -/
inductive Role
  | Active
  | Passive
  | ActPass
deriving DecidableEq, Repr

/-- The two `PLOG_WARNING` events of the parsing constructor of
`Description`. -/
inductive Warning
  | midlessMLine
  | unknownFingerprintType (value : Str)
deriving DecidableEq, Repr

/-- Structure `Description::Media`: one non-data media section. -/
structure Media where
  type : Str
  description : Str
  mid : Str
  attributes : List Str
deriving DecidableEq, Repr

/-- Constructor `Description::Media::Media(mline)`: `type` is the text before
the first space; `description` is the text after the second space, when both
spaces exist. -/
def Media.ofMline (mline : Str) : Media :=
  match findIdx ' ' mline with
  | none => { type := mline, description := [], mid := [], attributes := [] }
  | some p =>
    { type := mline.take p
      description :=
        match findIdx ' ' (mline.drop (p + 1)) with
        | none => []
        | some q0 => mline.drop (p + 1 + q0 + 1)
      mid := []
      attributes := [] }

/-- Modelled from the spec: the `Candidate` class (its source,
`src/candidate.cpp`, is not among the given files).  Per the data model a
candidate is an opaque `a=candidate:...` attribute payload "tied to a `mid`";
per the parser table the payload is what was read from the line after `a=`,
and the round-trip property requires the stringifier to render that same
attribute line back. -/
structure Candidate where
  raw : Str
  mid : Str
deriving DecidableEq, Repr

/-- Modelled from the spec: the `Candidate` stringifier renders the stored
attribute payload as the SDP attribute line it was parsed from. -/
def candidateToString (c : Candidate) : Str := str ("a=") ++ c.raw

/-- The `Description` value: session-level fields, the data section
(`mData`), the ordered media map (`mMedia`, a `std::map<int, Media>` kept here
as an association list sorted by key) and the trickle candidates. -/
structure Description where
  type : DType
  role : Role
  sessionId : Str
  iceUfrag : Str
  icePwd : Str
  fingerprint : Option Str
  dataMid : Str
  sctpPort : Option Nat
  maxMessageSize : Option Nat
  media : List (Nat × Media)
  candidates : List Candidate
  ended : Bool
deriving DecidableEq, Repr

/-- Operation `std::map::emplace`: insert in key order, without overwriting an
existing key. -/
def mapEmplace (k : Nat) (v : Media) : List (Nat × Media) → List (Nat × Media)
  | [] => [(k, v)]
  | (k', v') :: rest =>
    if k < k' then (k, v) :: (k', v') :: rest
    else if k = k' then (k', v') :: rest
    else (k', v') :: mapEmplace k v rest

/-- Operation `std::map::find` on the media map. -/
def mapFind (k : Nat) : List (Nat × Media) → Option Media
  | [] => none
  | (k', v) :: rest => if k = k' then some v else mapFind k rest

/-- Method `Description::hintType`: adopt the hinted type only while the type
is unspecified; becoming an answer coerces an `ActPass` role to `Passive`. -/
def Description.hintType (d : Description) (t : DType) : Description :=
  if d.type = DType.Unspec then
    let d' : Description := { d with type := t }
    if d'.type = DType.Answer ∧ d'.role = Role.ActPass then
      { d' with role := Role.Passive }
    else d'
  else d

/-- Method `Description::setDataMid`. -/
def Description.setDataMid (d : Description) (mid : Str) : Description :=
  { d with dataMid := mid }

/-- Method `Description::setFingerprint`: stores the given string as is. -/
def Description.setFingerprint (d : Description) (fingerprint : Str) : Description :=
  { d with fingerprint := some fingerprint }

/-- Method `Description::setSctpPort`. -/
def Description.setSctpPort (d : Description) (port : Nat) : Description :=
  { d with sctpPort := some port }

/-- Method `Description::setMaxMessageSize`. -/
def Description.setMaxMessageSize (d : Description) (size : Nat) : Description :=
  { d with maxMessageSize := some size }

/-- Method `Description::addCandidate`: append to the candidate list. -/
def Description.addCandidate (d : Description) (c : Candidate) : Description :=
  { d with candidates := d.candidates ++ [c] }

/-- Method `Description::endCandidates`. -/
def Description.endCandidates (d : Description) : Description :=
  { d with ended := true }

/-- Method `Description::extractCandidates`: swap the candidate list with an
empty one, clear `mEnded`, and return the old list (paired here with the
mutated description). -/
def Description.extractCandidates (d : Description) : List Candidate × Description :=
  (d.candidates, { d with candidates := [], ended := false })

/-- Method `Description::hasMedia`. -/
def Description.hasMedia (d : Description) : Bool := !d.media.isEmpty

/-- Method `Description::addMedia`: emplace every media entry of the source
description. -/
def Description.addMedia (d source : Description) : Description :=
  { d with media := source.media.foldl (fun acc p => mapEmplace p.1 p.2 acc) d.media }

/-- Method `Description::bundleMid`: the mid of the media at index 0, or the
data mid. -/
def Description.bundleMid (d : Description) : Str :=
  match mapFind 0 d.media with
  | some m => m.mid
  | none => d.dataMid

/-- Function `Description::stringToType`. -/
def stringToType (typeString : Str) : DType :=
  if typeString = str ("offer") then DType.Offer
  else if typeString = str ("answer") then DType.Answer
  else DType.Unspec

/-- Function `Description::typeToString`. -/
def typeToString (t : DType) : Str :=
  match t with
  | DType.Offer => str ("offer")
  | DType.Answer => str ("answer")
  | DType.Unspec => []

/-- Function `Description::roleToString`. -/
def roleToString (r : Role) : Str :=
  match r with
  | Role.Active => str ("active")
  | Role.Passive => str ("passive")
  | Role.ActPass => str ("actpass")

/-- State of the parsing loop of `Description`'s constructor: the description
built so far, the pending media section (`currentMedia`), the m-line index
counter, and the `PLOG_WARNING` events issued so far. -/
structure PState where
  d : Description
  current : Option Media
  mlineIndex : Nat
  warnings : List Warning
deriving DecidableEq, Repr

/-- Closing of the pending media section, reached on the next `m=` line or at
the end of input (`line` is that next, already trimmed, line — the empty
string at the end of input).  A pending section with a mid becomes the data
mid (type `application`) or a media map entry, and bumps the m-line index; a
pending section without a mid is discarded, with a warning exactly when
`line` contains `" ICE/SDP"`. -/
def flushCurrent (s : PState) (line : Str) : PState :=
  match s.current with
  | none => s
  | some m =>
    if m.mid ≠ [] then
      { s with
        d := if m.type = str ("application") then { s.d with dataMid := m.mid }
             else { s.d with media := mapEmplace s.mlineIndex m s.d.media },
        mlineIndex := s.mlineIndex + 1 }
    else if containsSub (str (" ICE/SDP")) line then
      { s with warnings := s.warnings ++ [Warning.midlessMLine] }
    else s

/-- Role denoted by the value of an `a=setup:` attribute (anything other than
`active` and `passive` is `ActPass`). -/
def setupRole (value : Str) : Role :=
  if value = str ("active") then Role.Active
  else if value = str ("passive") then Role.Passive
  else Role.ActPass

/-- Attribute-line handling of the parsing constructor (`line` is trimmed and
starts with `a=`; `attr` is `line.substr(2)`). -/
def attrStep (s : PState) (attr : Str) : Except SdpError PState :=
  if attrKey attr = str ("mid") then
    match s.current with
    | some m => .ok { s with current := some { m with mid := attrValue attr } }
    | none => .ok s
  else if attrKey attr = str ("setup") then
    .ok { s with d := { s.d with role := setupRole (attrValue attr) } }
  else if attrKey attr = str ("fingerprint") then
    if matchPfx (str ("sha-256 ")) (attrValue attr) then
      .ok { s with d := { s.d with
        fingerprint := some (mapToUpper ((attrValue attr).drop 8)) } }
    else
      .ok { s with warnings := s.warnings ++ [Warning.unknownFingerprintType (attrValue attr)] }
  else if attrKey attr = str ("ice-ufrag") then
    .ok { s with d := { s.d with iceUfrag := attrValue attr } }
  else if attrKey attr = str ("ice-pwd") then
    .ok { s with d := { s.d with icePwd := attrValue attr } }
  else if attrKey attr = str ("sctp-port") then
    match stoul (attrValue attr) with
    | .error e => .error e
    | .ok n => .ok { s with d := { s.d with sctpPort := some (n % 65536) } }
  else if attrKey attr = str ("max-message-size") then
    match stoul (attrValue attr) with
    | .error e => .error e
    | .ok n => .ok { s with d := { s.d with maxMessageSize := some n } }
  else if attrKey attr = str ("candidate") then
    .ok { s with d := s.d.addCandidate { raw := attr, mid :=
      match s.current with
      | some m => m.mid
      | none => s.d.dataMid } }
  else if attrKey attr = str ("end-of-candidates") then
    .ok { s with d := { s.d with ended := true } }
  else
    match s.current with
    | some m => .ok { s with current := some { m with attributes := m.attributes ++ [attr] } }
    | none => .ok s

/-- One iteration of the parsing loop on a line read by `getline`: trim the
end, then dispatch on the `m=` / `a=` prefix (other lines are ignored). -/
def lineStep (s : PState) (rawLine : Str) : Except SdpError PState :=
  if matchPfx (str ("m=")) (trimEnd rawLine) then
    .ok { flushCurrent s (trimEnd rawLine) with
          current := some (Media.ofMline ((trimEnd rawLine).drop 2)) }
  else if matchPfx (str ("a=")) (trimEnd rawLine) then
    attrStep s ((trimEnd rawLine).drop 2)
  else .ok s

/-- Error-absorbing step used to fold the parser over the line list. -/
def stepE (st : Except SdpError PState) (line : Str) : Except SdpError PState :=
  match st with
  | .error e => .error e
  | .ok s => lineStep s line

/-- Initial state of the parsing constructor
`Description::Description(sdp, type, role)`: the data mid starts as `data`,
then `hintType(type)` runs.  The session id is drawn from a clock-seeded
random engine in the source and is taken as a parameter here. -/
def initPState (t : DType) (r : Role) (sessionId : Str) : PState :=
  { d := ({ type := DType.Unspec, role := r, sessionId := sessionId, iceUfrag := [],
            icePwd := [], fingerprint := none, dataMid := str ("data"), sctpPort := none,
            maxMessageSize := none, media := [], candidates := [],
            ended := false } : Description).hintType t,
    current := none, mlineIndex := 0, warnings := [] }

/-- Continuation of the parsing constructor after the `getline` loop: the
final iteration (with `finished` true and an empty `line`) closes the pending
media section. -/
def Description.parseLines (lines : List Str) (t : DType) (r : Role) (sessionId : Str) :
    Except SdpError (Description × List Warning) :=
  match lines.foldl stepE (.ok (initPState t r sessionId)) with
  | .error e => .error e
  | .ok s => .ok ((flushCurrent s []).d, (flushCurrent s []).warnings)

/-- The parsing constructor `Description::Description(sdp, type, role)` on a
whole SDP string. -/
def Description.parse (sdp : Str) (t : DType) (r : Role) (sessionId : Str) :
    Except SdpError (Description × List Warning) :=
  Description.parseLines (splitLines sdp) t r sessionId

/-- The mids enumerated on the emitted `a=group:BUNDLE` line, walking m-line
indices `0 .. mediaCount` and falling back to the data mid at indices that
hold no media. -/
def bundleMids (d : Description) : List Str :=
  (List.range (d.media.length + 1)).map fun i =>
    match mapFind i d.media with
    | some m => m.mid
    | none => d.dataMid

/-- The lines emitted by `generateSdp` for m-line index `i`: either the media
section stored at `i`, or the data (`application`) section at the one index
that holds no media. -/
def sectionLines (d : Description) (i : Nat) : List Str :=
  match mapFind i d.media with
  | some m =>
    [str ("m=") ++ m.type ++ [' '] ++ str ("0 ") ++ m.description,
     str ("c=IN IP4 0.0.0.0"),
     str ("a=bundle-only"),
     str ("a=mid:") ++ m.mid]
    ++ m.attributes.map (fun a => str ("a=") ++ a)
  | none =>
    [str ("m=application ") ++ (if d.media.isEmpty then str ("9") else str ("0"))
       ++ [' '] ++ str ("UDP/DTLS/SCTP webrtc-datachannel"),
     str ("c=IN IP4 0.0.0.0")]
    ++ (if d.media.isEmpty then [] else [str ("a=bundle-only")])
    ++ [str ("a=mid:") ++ d.dataMid,
        str ("a=sendrecv")]
    ++ (match d.sctpPort with
        | some p => [str ("a=sctp-port:") ++ toDecimal p]
        | none => [])
    ++ (match d.maxMessageSize with
        | some n => [str ("a=max-message-size:") ++ toDecimal n]
        | none => [])

/-- Session-level lines of `Description::generateSdp`: header, bundle and
lip-sync groups, msid semantics, setup role, ICE credentials, the trickle
option while candidates are not ended, and the fingerprint when present. -/
def sessionLinesOf (d : Description) : List Str :=
  [str ("v=0"),
   str ("o=- ") ++ d.sessionId ++ str (" 0 IN IP4 127.0.0.1"),
   str ("s=-"),
   str ("t=0 0"),
   str ("a=group:BUNDLE") ++ (bundleMids d).flatMap (fun m => ' ' :: m)]
  ++ (if d.media.isEmpty then []
      else [str ("a=group:LS") ++ d.media.flatMap (fun p => ' ' :: p.2.mid)])
  ++ [str ("a=msid-semantic:WMS *"),
      str ("a=setup:") ++ roleToString d.role,
      str ("a=ice-ufrag:") ++ d.iceUfrag,
      str ("a=ice-pwd:") ++ d.icePwd]
  ++ (if d.ended then [] else [str ("a=ice-options:trickle")])
  ++ (match d.fingerprint with
      | some fp => [str ("a=fingerprint:sha-256 ") ++ fp]
      | none => [])

/-- Media and data section lines, walking m-line indices `0 .. mediaCount`. -/
def mediaLinesOf (d : Description) : List Str :=
  (List.range (d.media.length + 1)).flatMap (sectionLines d)

/-- Candidate lines, in insertion order. -/
def candLinesOf (d : Description) : List Str := d.candidates.map candidateToString

/-- The trailing end-of-candidates line when candidates have ended. -/
def endLinesOf (d : Description) : List Str :=
  if d.ended then [str ("a=end-of-candidates")] else []

/-- All lines of `Description::generateSdp`, in emission order; every entry
is streamed with a trailing `eol` by the source. -/
def sdpLines (d : Description) : List Str :=
  sessionLinesOf d ++ mediaLinesOf d ++ candLinesOf d ++ endLinesOf d

/-- Emitter `Description::generateSdp`: every line followed by `eol`. -/
def generateSdp (d : Description) (eol : Str) : Str :=
  (sdpLines d).flatMap (fun l => l ++ eol)

/-- The pieces streamed by `Description::generateDataSdp`, each terminated by
`eol` in the source — except that the source writes the `m=application` line
and the following `c=` line with no `eol` in between, so they form a single
emitted line (kept fused here exactly as the source streams them). -/
def dataSdpLines (d : Description) : List Str :=
  [str ("v=0"),
   str ("o=- ") ++ d.sessionId ++ str (" 0 IN IP4 127.0.0.1"),
   str ("s=-"),
   str ("t=0 0"),
   str ("m=application 9 UDP/DTLS/SCTP webrtc-datachannel") ++ str ("c=IN IP4 0.0.0.0"),
   str ("a=mid:") ++ d.dataMid,
   str ("a=sendrecv")]
  ++ (match d.sctpPort with
      | some p => [str ("a=sctp-port:") ++ toDecimal p]
      | none => [])
  ++ (match d.maxMessageSize with
      | some n => [str ("a=max-message-size:") ++ toDecimal n]
      | none => [])
  ++ [str ("a=setup:") ++ roleToString d.role,
      str ("a=ice-ufrag:") ++ d.iceUfrag,
      str ("a=ice-pwd:") ++ d.icePwd]
  ++ (if d.ended then [] else [str ("a=ice-options:trickle")])
  ++ (match d.fingerprint with
      | some fp => [str ("a=fingerprint:sha-256 ") ++ fp]
      | none => [])
  ++ d.candidates.map candidateToString
  ++ (if d.ended then [str ("a=end-of-candidates")] else [])

/-- Emitter `Description::generateDataSdp`. -/
def generateDataSdp (d : Description) (eol : Str) : Str :=
  (dataSdpLines d).flatMap (fun l => l ++ eol)

/-- Constant `DEFAULT_SCTP_PORT` of `include.hpp`. -/
def DEFAULT_SCTP_PORT : Nat := 5000

/-- Constant `DEFAULT_MAX_MESSAGE_SIZE` of `include.hpp`. -/
def DEFAULT_MAX_MESSAGE_SIZE : Nat := 65536

/-- Constant `LOCAL_MAX_MESSAGE_SIZE` of `include.hpp` (256 KiB). -/
def LOCAL_MAX_MESSAGE_SIZE : Nat := 256 * 1024

/-- Enumeration `WebSocket::State`. -/
inductive WsState
  | Closed
  | Connecting
  | Open
  | Closing
deriving DecidableEq, Repr

/-- The user-visible exceptions thrown by the WebSocket facade paths modeled
here. -/
inductive WsError
  | invalidState
  | malformedUrl
  | invalidScheme
  | notOpen
  | tooLarge
deriving DecidableEq, Repr

/-- Decomposition of a URL by the facade's regular expression
`^(([^:\/?#]+):)?(//([^\/?#]*))?([^?#]*)(\?([^#]*))?(#(.*))?` (POSIX extended
syntax, where the backslash is a literal member of the bracket classes).
Every part is optional and the trailing classes absorb arbitrary text, so the
expression matches every input; the decomposition is deterministic because
each component's character class excludes the delimiter that starts the
next component. -/
structure UrlParts where
  scheme : Str
  authority : Str
  path : Str
  query : Str
  fragment : Str
deriving DecidableEq, Repr

/-- Scheme character class `[^:\/?#]` of the URL regular expression (the
backslash is a literal member of the POSIX bracket class). -/
def urlSchemeChar (c : Char) : Bool := !(c == ':' || c == '/' || c == '?' || c == '#' || c == '\\')

/-- Authority character class `[^\/?#]`. -/
def urlAuthChar (c : Char) : Bool := !(c == '/' || c == '?' || c == '#' || c == '\\')

/-- Path character class `[^?#]`. -/
def urlPathChar (c : Char) : Bool := !(c == '?' || c == '#')

/-- Query character class `[^#]`. -/
def urlQueryChar (c : Char) : Bool := !(c == '#')

/-- Optional scheme `(([^:\/?#]+):)?`: the longest nonempty scheme-class
prefix followed by `:`; otherwise no scheme. -/
def urlSchemeSplit (u : Str) : Str × Str :=
  match u.drop (u.takeWhile urlSchemeChar).length with
  | ':' :: after =>
    if u.takeWhile urlSchemeChar = [] then ([], u) else (u.takeWhile urlSchemeChar, after)
  | _ => ([], u)

/-- Optional authority `(//([^\/?#]*))?`. -/
def urlAuthSplit : Str → Str × Str
  | '/' :: '/' :: after =>
    (after.takeWhile urlAuthChar, after.drop (after.takeWhile urlAuthChar).length)
  | other => ([], other)

/-- Path `([^?#]*)`. -/
def urlPathSplit (s : Str) : Str × Str :=
  (s.takeWhile urlPathChar, s.drop (s.takeWhile urlPathChar).length)

/-- Optional query `(\?([^#]*))?`. -/
def urlQuerySplit : Str → Str × Str
  | '?' :: after =>
    (after.takeWhile urlQueryChar, after.drop (after.takeWhile urlQueryChar).length)
  | other => ([], other)

/-- Optional fragment `(#(.*))?`. -/
def urlFragmentOf : Str → Str
  | '#' :: after => after
  | _ => []

/-- Deterministic model of `std::regex_match` with the facade's URL regular
expression: an optional scheme (no `:`, `/`, `?`, `#`, `\` characters,
terminated by `:`), an optional `//`-prefixed authority (no `/`, `?`, `#`,
`\`), a path up to `?` or `#`, an optional `?`-prefixed query up to `#`, and
an optional `#`-prefixed fragment. -/
def parseUrl (u : Str) : UrlParts :=
  { scheme := (urlSchemeSplit u).1
    authority := (urlAuthSplit (urlSchemeSplit u).2).1
    path := (urlPathSplit (urlAuthSplit (urlSchemeSplit u).2).2).1
    query := (urlQuerySplit (urlPathSplit (urlAuthSplit (urlSchemeSplit u).2).2).2).1
    fragment :=
      urlFragmentOf (urlQuerySplit (urlPathSplit (urlAuthSplit (urlSchemeSplit u).2).2).2).2 }

/-- Connection parameters established by `WebSocket::open`. -/
structure WsConn where
  scheme : Str
  host : Str
  hostname : Str
  service : Str
  path : Str
deriving DecidableEq, Repr

/-- Method `WebSocket::open`: requires the `Closed` state, matches the URL
against the regular expression (which accepts every input, so the
malformed-URL throw is unreachable), accepts only the `ws` and `wss` schemes,
splits the authority at its first `:` into hostname and service with default
services 80 (`ws`) and 443 (`wss`), takes the path component verbatim,
appends `?query` when a query is present, and transitions to `Connecting`. -/
def wsOpen (state : WsState) (url : Str) : Except WsError (WsState × WsConn) :=
  if state ≠ WsState.Closed then .error WsError.invalidState
  else
    let p := parseUrl url
    if ¬(p.scheme = str ("ws") ∨ p.scheme = str ("wss")) then .error WsError.invalidScheme
    else
      let host := p.authority
      let hostnameService : Str × Str :=
        match findIdx ':' host with
        | some pos => (host.take pos, host.drop (pos + 1))
        | none => (host, if p.scheme = str ("ws") then str ("80") else str ("443"))
      let path := p.path ++ (if p.query ≠ [] then '?' :: p.query else [])
      .ok (WsState.Connecting,
        { scheme := p.scheme, host := host, hostname := hostnameService.1,
          service := hostnameService.2, path := path })

/-- Message kinds relevant to the facade's send path. -/
inductive MsgKind
  | text
  | binary
deriving DecidableEq, Repr

/-- A message as seen by `WebSocket::outgoing`: its kind and payload size. -/
structure WsMessage where
  kind : MsgKind
  size : Nat
deriving DecidableEq, Repr

/-- The facade state relevant to `WebSocket::outgoing`: the connection state,
whether `mWsTransport` is set, and the receive queue. -/
structure WsFacade where
  state : WsState
  hasWsTransport : Bool
  recvQueue : List WsMessage
deriving DecidableEq, Repr

/-- Method `WebSocket::maxMessageSize`: returns `DEFAULT_MAX_MESSAGE_SIZE`. -/
def wsMaxMessageSize : Nat := DEFAULT_MAX_MESSAGE_SIZE

/-- Method `WebSocket::outgoing` (the body of `send`): throws when the state
is not `Open` or the transport is absent; throws `TooLarge` when the message
size exceeds `maxMessageSize()`; otherwise hands the message to the WebSocket
transport (whose `send` result is abstracted as `transportSend`).  The facade
state, in particular the receive queue, is never modified. -/
def wsOutgoing (transportSend : WsMessage → Bool) (w : WsFacade) (msg : WsMessage) :
    Except WsError (WsFacade × Bool) :=
  if ¬(w.state = WsState.Open) ∨ w.hasWsTransport = false then .error WsError.notOpen
  else if msg.size > wsMaxMessageSize then .error WsError.tooLarge
  else .ok (w, transportSend msg)

deriving instance DecidableEq for Except

/-- Projection of a parse outcome to the description, for stating concrete
evaluations. -/
def parsedDesc (lines : List Str) (t : DType) (r : Role) (sid : Str) : Option Description :=
  match Description.parseLines lines t r sid with
  | .ok p => some p.1
  | .error _ => none

/-- Projection of a parse outcome to the warning list. -/
def parsedWarnings (lines : List Str) (t : DType) (r : Role) (sid : Str) :
    Option (List Warning) :=
  match Description.parseLines lines t r sid with
  | .ok p => some p.2
  | .error _ => none

/-- A sample description, used to instantiate general theorems. -/
def sampleDesc : Description :=
  { type := DType.Unspec, role := Role.ActPass, sessionId := str ("1"), iceUfrag := [],
    icePwd := [], fingerprint := none, dataMid := str ("data"), sctpPort := none,
    maxMessageSize := none, media := [], candidates := [], ended := false }

/-- C2: on a description whose type is still unspecified and whose role is
`ActPass`, `hintType(Answer)` coerces the role to `Passive`; `hintType(Offer)`
never changes the role; and `hintType` of anything has no effect once the
type is specified. -/
theorem c2_hintType_role_coercion :
    (∀ d : Description, d.type = DType.Unspec → d.role = Role.ActPass →
      (d.hintType DType.Answer).role = Role.Passive) ∧
    (∀ d : Description, (d.hintType DType.Offer).role = d.role) ∧
    (∀ (d : Description) (t : DType), d.type ≠ DType.Unspec → d.hintType t = d) := by
  refine ⟨?_, ?_, ?_⟩
  · intro d h1 h2
    simp [Description.hintType, h1, h2]
  · intro d
    by_cases h : d.type = DType.Unspec <;> simp [Description.hintType, h]
  · intro d t h
    simp [Description.hintType, h]

/-- Witness for C2 at concrete descriptions. -/
theorem c2_hintType_role_coercion_witness :
    ((sampleDesc.hintType DType.Answer).role = Role.Passive) ∧
    ((sampleDesc.hintType DType.Offer).role = sampleDesc.role) ∧
    (({ sampleDesc with type := DType.Offer } : Description).hintType DType.Answer =
      { sampleDesc with type := DType.Offer }) :=
  ⟨c2_hintType_role_coercion.1 sampleDesc rfl rfl,
   c2_hintType_role_coercion.2.1 sampleDesc,
   c2_hintType_role_coercion.2.2 { sampleDesc with type := DType.Offer } DType.Answer (by decide)⟩

/-- C9: `extractCandidates` returns the candidates accumulated by
`addCandidate` in insertion order, and leaves the description with an empty
candidate list and `ended() = false`, even right after `endCandidates()`. -/
theorem c9_extractCandidates_resets :
    ∀ (d : Description) (cs : List Candidate),
      (Description.extractCandidates (Description.endCandidates
          (cs.foldl Description.addCandidate d))).1 = d.candidates ++ cs ∧
      (Description.extractCandidates (Description.endCandidates
          (cs.foldl Description.addCandidate d))).2.candidates = [] ∧
      (Description.extractCandidates (Description.endCandidates
          (cs.foldl Description.addCandidate d))).2.ended = false ∧
      (Description.extractCandidates d).1 = d.candidates ∧
      (Description.extractCandidates d).2.candidates = [] ∧
      (Description.extractCandidates d).2.ended = false := by
  have hfold : ∀ (cs : List Candidate) (d : Description),
      (cs.foldl Description.addCandidate d).candidates = d.candidates ++ cs := by
    intro cs
    induction cs with
    | nil => intro d; simp
    | cons c cs ih =>
      intro d
      simp [List.foldl_cons, ih, Description.addCandidate]
  intro d cs
  refine ⟨?_, rfl, rfl, rfl, rfl, rfl⟩
  simp [Description.extractCandidates, Description.endCandidates, hfold]

/-- C6: evaluation of the data-only emitter at a concrete description.  The
source streams the `m=application` line without an `eol` before the `c=`
line, so the two are fused into a single emitted line: splitting the output
at the end-of-line separator yields the fused line, and no separate
`m=application ...` line exists. -/
theorem c6_generateDataSdp_missing_eol :
    (str ("m=application 9 UDP/DTLS/SCTP webrtc-datachannel") ++ str ("c=IN IP4 0.0.0.0")
        ++ str ("\r")) ∈ splitLines (generateDataSdp sampleDesc (str ("\r\n"))) ∧
    ¬ (str ("m=application 9 UDP/DTLS/SCTP webrtc-datachannel") ++ str ("\r"))
        ∈ splitLines (generateDataSdp sampleDesc (str ("\r\n"))) := by decide

/-- C4 counterexample: a 100000-byte message is rejected with `TooLarge` on an
open facade although it does not exceed `LOCAL_MAX_MESSAGE_SIZE`, because the
facade's limit is `maxMessageSize() = DEFAULT_MAX_MESSAGE_SIZE`. -/
theorem c4_size_limit_counterexample :
    wsOutgoing (fun _ => true)
        { state := WsState.Open, hasWsTransport := true, recvQueue := [] }
        { kind := MsgKind.binary, size := 100000 } = .error WsError.tooLarge ∧
    100000 ≤ LOCAL_MAX_MESSAGE_SIZE := by decide

/-- C4 (amended): on an open facade with a transport, `outgoing` rejects with
`TooLarge` exactly the messages whose size exceeds `maxMessageSize()`, which
is `DEFAULT_MAX_MESSAGE_SIZE` (65536); on success the facade state, in
particular the receive queue, is unchanged. -/
theorem c4_send_size_limit (ts : WsMessage → Bool) (w : WsFacade) (msg : WsMessage)
    (hopen : w.state = WsState.Open) (htr : w.hasWsTransport = true) :
    (wsOutgoing ts w msg = .error WsError.tooLarge ↔ msg.size > DEFAULT_MAX_MESSAGE_SIZE) ∧
    (∀ r, wsOutgoing ts w msg = .ok r → r.1 = w) := by
  have h1 : ¬(¬(w.state = WsState.Open) ∨ w.hasWsTransport = false) := by
    simp [hopen, htr]
  unfold wsOutgoing
  rw [if_neg h1]
  by_cases hs : msg.size > wsMaxMessageSize
  · rw [if_pos hs]
    refine ⟨⟨fun _ => hs, fun _ => rfl⟩, ?_⟩
    intro r hr
    exact absurd hr (by simp)
  · rw [if_neg hs]
    refine ⟨⟨fun h => absurd h (by simp), fun h => absurd h hs⟩, ?_⟩
    intro r hr
    injection hr with h2
    rw [← h2]

/-- Witness for C4 (amended): the spec's oversized-send scenario, a 300 KiB
binary payload on an open facade with a queued message. -/
theorem c4_send_size_limit_witness :
    (wsOutgoing (fun _ => true)
        { state := WsState.Open, hasWsTransport := true,
          recvQueue := [{ kind := MsgKind.text, size := 3 }] }
        { kind := MsgKind.binary, size := 307200 } = .error WsError.tooLarge ↔
      307200 > DEFAULT_MAX_MESSAGE_SIZE) ∧
    (∀ r, wsOutgoing (fun _ => true)
        { state := WsState.Open, hasWsTransport := true,
          recvQueue := [{ kind := MsgKind.text, size := 3 }] }
        { kind := MsgKind.binary, size := 307200 } = .ok r →
      r.1 = { state := WsState.Open, hasWsTransport := true,
              recvQueue := [{ kind := MsgKind.text, size := 3 }] }) :=
  c4_send_size_limit (fun _ => true) _ _ rfl rfl

/-- C7 counterexample: a lone `m=video 9 ICE/SDP` section without a mid is
dropped with no warning (the check looks at the line that terminates the
section, which at end of input is empty); a mid-less `m=video 9 X` section is
not retained; and a warning fires for a mid-less section whose own m-line has
no `ICE/SDP` when the next m-line contains it. -/
theorem c7_midless_counterexample :
    ((parsedDesc [str ("m=video 9 ICE/SDP")] DType.Offer Role.ActPass (str ("1"))).map
        (fun d => d.media) = some [] ∧
     (parsedDesc [str ("m=video 9 ICE/SDP")] DType.Offer Role.ActPass (str ("1"))).map
        (fun d => d.hasMedia) = some false ∧
     parsedWarnings [str ("m=video 9 ICE/SDP")] DType.Offer Role.ActPass (str ("1")) =
        some []) ∧
    ((parsedDesc [str ("m=video 9 X")] DType.Offer Role.ActPass (str ("1"))).map
        (fun d => d.media) = some [] ∧
     parsedWarnings [str ("m=video 9 X")] DType.Offer Role.ActPass (str ("1")) = some []) ∧
    (parsedWarnings [str ("m=video 9 X"), str ("m=audio 9 Y ICE/SDP"), str ("a=mid:a")]
        DType.Offer Role.ActPass (str ("1")) = some [Warning.midlessMLine] ∧
     (parsedDesc [str ("m=video 9 X"), str ("m=audio 9 Y ICE/SDP"), str ("a=mid:a")]
        DType.Offer Role.ActPass (str ("1"))).map
          (fun d => d.media.map (fun p => p.2.mid)) = some [[str ("a")].head!]) := by decide

/-- C7 (amended): a pending media section without a mid is never retained:
closing it leaves the description and the m-line index unchanged, and issues
the warning exactly when the line that terminates the section (the next
`m=` line; the empty line at end of input) contains `" ICE/SDP"`. -/
theorem c7_midless_mline_dropped (s : PState) (m : Media) (line : Str)
    (hc : s.current = some m) (hm : m.mid = []) :
    flushCurrent s line =
      (if containsSub (str (" ICE/SDP")) line then
        { s with warnings := s.warnings ++ [Warning.midlessMLine] }
      else s) := by
  unfold flushCurrent
  rw [hc]
  simp [hm]

/-- Witness for C7 (amended) at a concrete parser state. -/
theorem c7_midless_mline_dropped_witness :
    flushCurrent
        { d := sampleDesc, current := some (Media.ofMline (str ("video 9 X"))),
          mlineIndex := 0, warnings := [] } (str ("m=audio 9 Y ICE/SDP")) =
      (if containsSub (str (" ICE/SDP")) (str ("m=audio 9 Y ICE/SDP")) then
        { d := sampleDesc, current := some (Media.ofMline (str ("video 9 X"))),
          mlineIndex := 0,
          warnings := ([] : List Warning) ++ [Warning.midlessMLine] }
      else { d := sampleDesc, current := some (Media.ofMline (str ("video 9 X"))),
             mlineIndex := 0, warnings := [] }) :=
  c7_midless_mline_dropped
    { d := sampleDesc, current := some (Media.ofMline (str ("video 9 X"))),
      mlineIndex := 0, warnings := [] }
    (Media.ofMline (str ("video 9 X"))) (str ("m=audio 9 Y ICE/SDP")) rfl (by decide)

/-- C3 counterexample: parsing two media sections that share the mid `A`
yields a description whose `a=group:BUNDLE` enumeration repeats `A`, so not
every enumerated mid appears exactly once. -/
theorem c3_bundle_counterexample :
    (parsedDesc [str ("m=video 9 X"), str ("a=mid:A"), str ("m=audio 9 Y"), str ("a=mid:A")]
        DType.Offer Role.ActPass (str ("1"))).map bundleMids =
      some [str ("A"), str ("A"), str ("data")] ∧
    (parsedDesc [str ("m=video 9 X"), str ("a=mid:A"), str ("m=audio 9 Y"), str ("a=mid:A")]
        DType.Offer Role.ActPass (str ("1"))).map (fun d => decide (bundleMids d).Nodup) =
      some false := by decide

/-- C5 counterexample: `setFingerprint` stores its argument verbatim, so a
lowercase input stays lowercase in the stored fingerprint. -/
theorem c5_setFingerprint_counterexample :
    (sampleDesc.setFingerprint (str ("ab:cd"))).fingerprint = some (str ("ab:cd")) ∧
    mapToUpper (str ("ab:cd")) ≠ str ("ab:cd") := by decide

/-- C8 counterexample: `open` on `ws://example.com` stores an empty path; the
path is not defaulted to `/`. -/
theorem c8_open_path_counterexample :
    wsOpen WsState.Closed (str ("ws://example.com")) =
      .ok (WsState.Connecting,
        { scheme := str ("ws"), host := str ("example.com"),
          hostname := str ("example.com"), service := str ("80"), path := [] }) ∧
    ([] : Str) ≠ str ("/") := by decide

/-- Membership from a successful association-list lookup. -/
theorem lookup_pair_mem {l : List (Char × Char)} {k v : Char}
    (h : l.lookup k = some v) : (k, v) ∈ l := by
  induction l with
  | nil => simp [List.lookup] at h
  | cons p rest ih =>
    rcases p with ⟨a, b⟩
    by_cases hk : k = a
    · subst hk
      simp [List.lookup] at h
      subst h
      exact List.mem_cons_self _ _
    · have hk' : (k == a) = false := by simp [hk]
      simp [List.lookup, hk'] at h
      exact List.mem_cons_of_mem _ (ih h)

/-- Outputs of the case table are not themselves keys of it. -/
theorem table_snd_lookup_none : ∀ p ∈ lowerUpperTable, lowerUpperTable.lookup p.2 = none := by
  decide

/-- Idempotence of C-locale uppercasing on one character. -/
theorem toUpperC_idem (c : Char) : toUpperC (toUpperC c) = toUpperC c := by
  cases h : lowerUpperTable.lookup c with
  | none => simp [toUpperC, h]
  | some u =>
    have h2 := table_snd_lookup_none (c, u) (lookup_pair_mem h)
    simp [toUpperC, h, h2]

/-- Idempotence of uppercasing on strings. -/
theorem mapToUpper_idem (s : Str) : mapToUpper (mapToUpper s) = mapToUpper s := by
  unfold mapToUpper
  rw [List.map_map]
  exact List.map_congr_left fun c _ => toUpperC_idem c

/-- Closing a pending media section never changes the stored fingerprint. -/
theorem flushCurrent_d_fingerprint (s : PState) (line : Str) :
    (flushCurrent s line).d.fingerprint = s.d.fingerprint := by
  unfold flushCurrent
  cases s.current with
  | none => rfl
  | some m =>
    by_cases h1 : m.mid ≠ []
    · by_cases h2 : m.type = str ("application") <;> simp [h1, h2]
    · by_cases h3 : containsSub (str (" ICE/SDP")) line = true <;> simp [h1, h3]

/-- An attribute line either leaves the fingerprint unchanged or stores an
uppercased value. -/
theorem attrStep_fingerprint (s : PState) (attr : Str) (s' : PState)
    (h : attrStep s attr = .ok s') :
    s'.d.fingerprint = s.d.fingerprint ∨ ∃ v, s'.d.fingerprint = some (mapToUpper v) := by
  unfold attrStep at h
  split_ifs at h <;> (try split at h) <;>
    first
    | (injection h with he; rw [← he]; left; rfl)
    | (injection h with he; rw [← he]; right; exact ⟨_, rfl⟩)
    | injection h

/-- One parser-loop iteration either preserves the fingerprint or stores an
uppercased one. -/
theorem lineStep_fingerprint (sp : PState) (l : Str) (s0 : PState)
    (h : lineStep sp l = .ok s0) :
    s0.d.fingerprint = sp.d.fingerprint ∨ ∃ v, s0.d.fingerprint = some (mapToUpper v) := by
  unfold lineStep at h
  split_ifs at h with h1 h2
  · injection h with he
    rw [← he]
    left
    exact flushCurrent_d_fingerprint sp (trimEnd l)
  · exact attrStep_fingerprint sp _ s0 h
  · injection h with he
    rw [← he]
    left
    rfl

/-- C5 (amended): every fingerprint held by a description produced by the
parser is uppercase (the parsing path applies `toupper`), while
`setFingerprint` stores its argument verbatim, so the setter preserves the
invariant only for already-uppercase input. -/
theorem c5_fingerprint_normalization :
    (∀ (lines : List Str) (t : DType) (r : Role) (sid : Str) (d : Description)
        (ws : List Warning),
        Description.parseLines lines t r sid = .ok (d, ws) →
        ∀ fp, d.fingerprint = some fp → mapToUpper fp = fp) ∧
    (∀ (d : Description) (s : Str), (d.setFingerprint s).fingerprint = some s) := by
  constructor
  · intro lines t r sid d ws hok fp hfp
    have inv : ∀ (ls : List Str) (st : Except SdpError PState),
        (∀ s0, st = .ok s0 → ∀ v, s0.d.fingerprint = some v → mapToUpper v = v) →
        ∀ s1, ls.foldl stepE st = .ok s1 →
        ∀ v, s1.d.fingerprint = some v → mapToUpper v = v := by
      intro ls
      induction ls with
      | nil =>
        intro st h s1 hs1
        exact h s1 hs1
      | cons l ls ih =>
        intro st h
        apply ih
        intro s0 hs0 v hv
        cases st with
        | error e => simp [stepE] at hs0
        | ok sp =>
          have hstep : lineStep sp l = .ok s0 := hs0
          rcases lineStep_fingerprint sp l s0 hstep with hsame | ⟨v0, hup⟩
          · exact h sp rfl v (by rw [← hsame]; exact hv)
          · rw [hv] at hup
            injection hup with hv0
            rw [hv0]
            exact mapToUpper_idem v0
    unfold Description.parseLines at hok
    cases hfold : (lines.foldl stepE (.ok (initPState t r sid))) with
    | error e => rw [hfold] at hok; exact absurd hok (by simp)
    | ok sfin =>
      rw [hfold] at hok
      simp only [Except.ok.injEq] at hok
      have hdesc : d = (flushCurrent sfin []).d := (congrArg Prod.fst hok).symm
      have hinv := inv lines _ ?_ sfin hfold fp ?_
      · exact hinv
      · intro s0 hs0 v hv
        injection hs0 with he
        rw [← he] at hv
        simp only [initPState, Description.hintType] at hv
        revert hv
        split_ifs <;> (intro hv; exact absurd hv (by simp))
      · rw [← flushCurrent_d_fingerprint sfin [], ← hdesc]
        exact hfp
  · intro d s
    rfl

/-- Witness for C5 (amended): a parsed mixed-case fingerprint is stored
uppercase; the setter stores verbatim. -/
theorem c5_fingerprint_normalization_witness :
    mapToUpper (str ("AB:CD:EF")) = str ("AB:CD:EF") ∧
    (sampleDesc.setFingerprint (str ("aa"))).fingerprint = some (str ("aa")) :=
  ⟨c5_fingerprint_normalization.1 [str ("a=fingerprint:sha-256 ab:cd:ef")]
      DType.Offer Role.ActPass (str ("1"))
      { type := DType.Offer, role := Role.ActPass, sessionId := str ("1"), iceUfrag := [],
        icePwd := [], fingerprint := some (str ("AB:CD:EF")), dataMid := str ("data"),
        sctpPort := none, maxMessageSize := none, media := [], candidates := [],
        ended := false } [] (by decide) (str ("AB:CD:EF")) rfl,
   c5_fingerprint_normalization.2 sampleDesc (str ("aa"))⟩

/-- The attribute keys the parser recognizes. -/
def recognizedKeys : List Str :=
  [str ("mid"), str ("setup"), str ("fingerprint"), str ("ice-ufrag"), str ("ice-pwd"),
   str ("sctp-port"), str ("max-message-size"), str ("candidate"), str ("end-of-candidates")]

set_option maxHeartbeats 2000000 in
/-- An attribute line processed with no pending media section leaves the
pending section absent. -/
theorem attrStep_current_none (s : PState) (attr : Str) (s' : PState)
    (hc : s.current = none) (h : attrStep s attr = .ok s') : s'.current = none := by
  unfold attrStep at h
  rw [hc] at h
  rcases hst : stoul (attrValue attr) with e | n <;> rw [hst] at h <;>
    split_ifs at h <;>
    first
    | (injection h with he; subst he; exact hc)
    | (injection h with he; subst he; rfl)
    | injection h

/-- An unrecognized attribute processed with no pending media section is a
no-op of the parser state. -/
theorem attrStep_unrecognized (s : PState) (attr : Str)
    (hc : s.current = none) (hk : attrKey attr ∉ recognizedKeys) :
    attrStep s attr = .ok s := by
  simp only [recognizedKeys, List.mem_cons, not_or] at hk
  obtain ⟨h1, h2, h3, h4, h5, h6, h7, h8, h9, _⟩ := hk
  unfold attrStep
  rw [hc]
  simp [h1, h2, h3, h4, h5, h6, h7, h8, h9]

/-- A line starting with `a=` does not start with `m=`. -/
theorem matchPfx_a_not_m (l : Str) (h : matchPfx (str ("a=")) l = true) :
    matchPfx (str ("m=")) l = false := by
  cases l with
  | nil => exact absurd h (by decide)
  | cons c cs =>
    have hc : c = 'a' := by
      by_contra hne
      have hbeq : ('a' == c) = false := by
        apply beq_eq_false_iff_ne.mpr
        exact fun hh => hne hh.symm
      simp [str, matchPfx, hbeq] at h
    subst hc
    simp [str, matchPfx]

/-- A non-`m=` line keeps the pending media section absent. -/
theorem lineStep_current_none (s : PState) (l : Str) (s' : PState)
    (hc : s.current = none) (hm : matchPfx (str ("m=")) (trimEnd l) = false)
    (h : lineStep s l = .ok s') : s'.current = none := by
  unfold lineStep at h
  rw [hm] at h
  simp only [Bool.false_eq_true, if_false] at h
  split_ifs at h with h2
  · exact attrStep_current_none s _ s' hc h
  · injection h with he
    rw [← he]
    exact hc

/-- Folding the parser over lines none of which is an `m=` line keeps the
pending media section absent. -/
theorem foldl_current_none (ls : List Str) (st : Except SdpError PState)
    (hst : ∀ s, st = .ok s → s.current = none)
    (hls : ∀ p ∈ ls, matchPfx (str ("m=")) (trimEnd p) = false) :
    ∀ s, ls.foldl stepE st = .ok s → s.current = none := by
  induction ls generalizing st with
  | nil =>
    intro s hs
    exact hst s hs
  | cons p ps ih =>
    intro s hs
    refine ih (stepE st p) ?_ (fun q hq => hls q (List.mem_cons_of_mem _ hq)) s hs
    intro s0 hs0
    cases st with
    | error e => exact absurd hs0 (by simp [stepE])
    | ok s1 =>
      exact lineStep_current_none s1 p s0 (hst s1 rfl) (hls p (List.mem_cons_self _ _)) hs0

/-- An unrecognized `a=` line with no pending media section is a no-op of one
parser-loop iteration. -/
theorem lineStep_unrecognized (s : PState) (l : Str)
    (hc : s.current = none)
    (hl : matchPfx (str ("a=")) (trimEnd l) = true)
    (hk : attrKey ((trimEnd l).drop 2) ∉ recognizedKeys) :
    lineStep s l = .ok s := by
  unfold lineStep
  rw [matchPfx_a_not_m _ hl]
  simp only [Bool.false_eq_true, if_false, hl, if_true]
  exact attrStep_unrecognized s _ hc hk

/-- C10: an `a=` line appearing before any `m=` line whose key is none of the
recognized session-level keys is discarded: the parse of the input with the
line is identical (description and warnings) to the parse without it, and so
is every subsequent emission. -/
theorem c10_session_unknown_attr_discarded
    (pre post : List Str) (l : Str) (t : DType) (r : Role) (sid : Str)
    (hpre : ∀ p ∈ pre, matchPfx (str ("m=")) (trimEnd p) = false)
    (hl : matchPfx (str ("a=")) (trimEnd l) = true)
    (hk : attrKey ((trimEnd l).drop 2) ∉ recognizedKeys) :
    Description.parseLines (pre ++ l :: post) t r sid =
      Description.parseLines (pre ++ post) t r sid ∧
    (Description.parseLines (pre ++ l :: post) t r sid).map
        (fun p => generateSdp p.1 (str ("\r\n"))) =
      (Description.parseLines (pre ++ post) t r sid).map
        (fun p => generateSdp p.1 (str ("\r\n"))) := by
  have key : (pre ++ l :: post).foldl stepE (.ok (initPState t r sid)) =
      (pre ++ post).foldl stepE (.ok (initPState t r sid)) := by
    rw [List.foldl_append, List.foldl_append]
    cases hm : pre.foldl stepE (.ok (initPState t r sid)) with
    | error e => rfl
    | ok s0 =>
      have hc : s0.current = none :=
        foldl_current_none pre _ (fun s hs => by injection hs with he; rw [← he]; rfl)
          hpre s0 hm
      show List.foldl stepE (stepE (.ok s0) l) post = List.foldl stepE (.ok s0) post
      have : stepE (.ok s0) l = .ok s0 := lineStep_unrecognized s0 l hc hl hk
      rw [this]
  constructor
  · unfold Description.parseLines
    rw [key]
  · unfold Description.parseLines
    rw [key]

/-- Witness for C10: an `a=group:` line before the first `m=` line is
dropped; the parses agree. -/
theorem c10_session_unknown_attr_discarded_witness :
    Description.parseLines
        ([str ("v=0")] ++ str ("a=group:BUNDLE x y") :: [str ("m=video 9 X"), str ("a=mid:v")])
        DType.Offer Role.ActPass (str ("1")) =
      Description.parseLines ([str ("v=0")] ++ [str ("m=video 9 X"), str ("a=mid:v")])
        DType.Offer Role.ActPass (str ("1")) ∧
    (Description.parseLines
        ([str ("v=0")] ++ str ("a=group:BUNDLE x y") :: [str ("m=video 9 X"), str ("a=mid:v")])
        DType.Offer Role.ActPass (str ("1"))).map
        (fun p => generateSdp p.1 (str ("\r\n"))) =
      (Description.parseLines ([str ("v=0")] ++ [str ("m=video 9 X"), str ("a=mid:v")])
        DType.Offer Role.ActPass (str ("1"))).map
        (fun p => generateSdp p.1 (str ("\r\n"))) :=
  c10_session_unknown_attr_discarded [str ("v=0")] [str ("m=video 9 X"), str ("a=mid:v")]
    (str ("a=group:BUNDLE x y")) DType.Offer Role.ActPass (str ("1"))
    (by decide) (by decide) (by decide)

/-- A found media entry is a member of the map. -/
theorem mapFind_mem {l : List (Nat × Media)} {k : Nat} {m : Media}
    (h : mapFind k l = some m) : (k, m) ∈ l := by
  induction l with
  | nil => exact absurd h (by simp [mapFind])
  | cons p rest ih =>
    rcases p with ⟨k', v⟩
    by_cases hk : k = k'
    · subst hk
      simp [mapFind] at h
      subst h
      exact List.mem_cons_self _ _
    · simp [mapFind, hk] at h
      exact List.mem_cons_of_mem _ (ih h)

/-- Keys missed by `mapFind` are exactly those absent from the key list. -/
theorem mapFind_eq_none {l : List (Nat × Media)} {k : Nat} :
    mapFind k l = none ↔ k ∉ l.map Prod.fst := by
  induction l with
  | nil => simp [mapFind]
  | cons p rest ih =>
    rcases p with ⟨k', v⟩
    by_cases hk : k = k' <;> simp [mapFind, hk, ih]

/-- With distinct keys, membership determines the `mapFind` result. -/
theorem mapFind_of_mem {l : List (Nat × Media)} (hnd : (l.map Prod.fst).Nodup)
    {k : Nat} {m : Media} (hm : (k, m) ∈ l) : mapFind k l = some m := by
  induction l with
  | nil => cases hm
  | cons p rest ih =>
    rcases p with ⟨k', v⟩
    rcases List.mem_cons.mp hm with he | hm'
    · injection he with h1 h2
      subst h1
      subst h2
      simp [mapFind]
    · have hk : k ≠ k' := by
        intro he
        subst he
        have hkmem : k ∈ rest.map Prod.fst := List.mem_map_of_mem Prod.fst hm'
        exact (List.nodup_cons.mp hnd).1 hkmem
      simp [mapFind, hk]
      exact ih (List.nodup_cons.mp hnd).2 hm'

/-- A media map with distinct keys, all at most its size, misses at least one
index in `0 .. size`. -/
theorem exists_free_index (l : List (Nat × Media))
    (hnd : (l.map Prod.fst).Nodup)
    (hbd : ∀ p ∈ l, p.1 < l.length + 1) :
    ∃ i < l.length + 1, mapFind i l = none := by
  by_contra hno
  push_neg at hno
  have hsub : (List.range (l.length + 1)) ⊆ l.map Prod.fst := by
    intro i hi
    have hi' : i < l.length + 1 := List.mem_range.mp hi
    rcases hfind : mapFind i l with _ | m
    · exact absurd hfind (hno i hi')
    · exact List.mem_map_of_mem Prod.fst (mapFind_mem hfind)
  have hle := (List.Nodup.subperm (List.nodup_range _) hsub).length_le
  simp at hle

/-- A media map with distinct keys, all at most its size, misses at most one
index in `0 .. size`. -/
theorem free_index_unique (l : List (Nat × Media))
    (hnd : (l.map Prod.fst).Nodup)
    (hbd : ∀ p ∈ l, p.1 < l.length + 1)
    {i j : Nat} (hi : i < l.length + 1) (hj : j < l.length + 1)
    (hfi : mapFind i l = none) (hfj : mapFind j l = none) : i = j := by
  by_contra hij
  rcases Nat.eq_zero_or_pos l.length with hn | hn
  · omega
  · have hsub : l.map Prod.fst ⊆ ((List.range (l.length + 1)).erase i).erase j := by
      intro k hk
      have hki : k ≠ i := by
        intro he
        subst he
        exact (mapFind_eq_none.mp hfi) hk
      have hkj : k ≠ j := by
        intro he
        subst he
        exact (mapFind_eq_none.mp hfj) hk
      have hkr : k ∈ List.range (l.length + 1) := by
        rcases List.mem_map.mp hk with ⟨p, hp, hpk⟩
        exact List.mem_range.mpr (hpk ▸ hbd p hp)
      exact (List.mem_erase_of_ne hkj).mpr ((List.mem_erase_of_ne hki).mpr hkr)
    have hle := (List.Nodup.subperm hnd hsub).length_le
    have hi' : i ∈ List.range (l.length + 1) := List.mem_range.mpr hi
    have hj' : j ∈ (List.range (l.length + 1)).erase i :=
      (List.mem_erase_of_ne (fun he => hij he.symm)).mpr (List.mem_range.mpr hj)
    have len1 : ((List.range (l.length + 1)).erase i).length =
        (List.range (l.length + 1)).length - 1 := List.length_erase_of_mem hi'
    have len2 : (((List.range (l.length + 1)).erase i).erase j).length =
        ((List.range (l.length + 1)).erase i).length - 1 := List.length_erase_of_mem hj'
    rw [len2, len1, List.length_range, List.length_map] at hle
    omega

/-- C3 (amended): for a description whose media m-line indices are distinct
and at most `mediaCount`, and whose media mids together with the data mid are
pairwise distinct, the `a=group:BUNDLE` enumeration has exactly
`mediaCount + 1` entries in m-line index order, every mid appears exactly
once, and the enumerated set is exactly every media mid plus the data mid. -/
theorem c3_bundle_complete (d : Description)
    (hnd : (d.media.map Prod.fst).Nodup)
    (hbd : ∀ p ∈ d.media, p.1 < d.media.length + 1)
    (hmids : (d.dataMid :: d.media.map (fun p => p.2.mid)).Nodup) :
    (bundleMids d).length = d.media.length + 1 ∧
    (bundleMids d).Nodup ∧
    (∀ x, x ∈ bundleMids d ↔ (x = d.dataMid ∨ ∃ p ∈ d.media, x = p.2.mid)) := by
  obtain ⟨hdm, hmm⟩ := List.nodup_cons.mp hmids
  have hinj := List.inj_on_of_nodup_map hmm
  refine ⟨by simp [bundleMids], ?_, ?_⟩
  · refine List.Nodup.map_on ?_ (List.nodup_range _)
    intro i hi j hj hf
    rcases hfi : mapFind i d.media with _ | mi <;> rcases hfj : mapFind j d.media with _ | mj
    · exact free_index_unique d.media hnd hbd
        (List.mem_range.mp hi) (List.mem_range.mp hj) hfi hfj
    · rw [hfi, hfj] at hf
      simp only [] at hf
      exfalso
      apply hdm
      rw [hf]
      exact List.mem_map_of_mem _ (mapFind_mem hfj)
    · rw [hfi, hfj] at hf
      simp only [] at hf
      exfalso
      apply hdm
      rw [← hf]
      exact List.mem_map_of_mem _ (mapFind_mem hfi)
    · rw [hfi, hfj] at hf
      simp only [] at hf
      have heq := hinj (mapFind_mem hfi) (mapFind_mem hfj) hf
      exact congrArg Prod.fst heq
  · intro x
    constructor
    · intro hx
      rcases List.mem_map.mp hx with ⟨i, hi, hfx⟩
      rcases hfi : mapFind i d.media with _ | mi
      · rw [hfi] at hfx
        simp only [] at hfx
        exact Or.inl hfx.symm
      · rw [hfi] at hfx
        simp only [] at hfx
        exact Or.inr ⟨(i, mi), mapFind_mem hfi, hfx.symm⟩
    · intro hx
      rcases hx with hx | ⟨p, hp, hx⟩
      · obtain ⟨i, hi, hfree⟩ := exists_free_index d.media hnd hbd
        apply List.mem_map.mpr
        refine ⟨i, List.mem_range.mpr hi, ?_⟩
        rw [hfree, hx]
      · apply List.mem_map.mpr
        refine ⟨p.1, List.mem_range.mpr (hbd p hp), ?_⟩
        have hp2 : (p.1, p.2) ∈ d.media := by
          rw [Prod.mk.eta]
          exact hp
        rw [mapFind_of_mem hnd hp2, hx]

/-- Witness for C3 (amended): a description with media at indices 0 and 2 and
the data section at index 1. -/
theorem c3_bundle_complete_witness :
    (bundleMids { sampleDesc with media :=
        [(0, { type := str ("video"), description := str ("X"), mid := str ("v"),
               attributes := [] }),
         (2, { type := str ("audio"), description := str ("Y"), mid := str ("a"),
               attributes := [] })] }).length = 3 ∧
    (bundleMids { sampleDesc with media :=
        [(0, { type := str ("video"), description := str ("X"), mid := str ("v"),
               attributes := [] }),
         (2, { type := str ("audio"), description := str ("Y"), mid := str ("a"),
               attributes := [] })] }).Nodup ∧
    (str ("data") ∈ bundleMids { sampleDesc with media :=
        [(0, { type := str ("video"), description := str ("X"), mid := str ("v"),
               attributes := [] }),
         (2, { type := str ("audio"), description := str ("Y"), mid := str ("a"),
               attributes := [] })] } ↔
      (str ("data") = Description.dataMid { sampleDesc with media :=
        [(0, { type := str ("video"), description := str ("X"), mid := str ("v"),
               attributes := [] }),
         (2, { type := str ("audio"), description := str ("Y"), mid := str ("a"),
               attributes := [] })] } ∨
       ∃ p ∈ Description.media { sampleDesc with media :=
        [(0, { type := str ("video"), description := str ("X"), mid := str ("v"),
               attributes := [] }),
         (2, { type := str ("audio"), description := str ("Y"), mid := str ("a"),
               attributes := [] })] }, str ("data") = p.2.mid)) := by
  have h := c3_bundle_complete { sampleDesc with media :=
        [(0, { type := str ("video"), description := str ("X"), mid := str ("v"),
               attributes := [] }),
         (2, { type := str ("audio"), description := str ("Y"), mid := str ("a"),
               attributes := [] })] } (by decide) (by decide) (by decide)
  exact ⟨h.1, h.2.1, h.2.2 (str ("data"))⟩

/-- Longest-prefix computation: takeWhile over an append whose first part
satisfies the predicate everywhere and whose second part is empty or starts
with a failing character. -/
theorem takeWhile_append_of_all {f : Char → Bool} {a b : Str}
    (ha : ∀ c ∈ a, f c = true)
    (hb : b = [] ∨ ∃ c r, b = c :: r ∧ f c = false) :
    (a ++ b).takeWhile f = a := by
  induction a with
  | nil =>
    rcases hb with rfl | ⟨c, r, rfl, hc⟩
    · rfl
    · simp [List.takeWhile_cons, hc]
  | cons x xs ih =>
    have hx : f x = true := ha x (List.mem_cons_self _ _)
    simp only [List.cons_append, List.takeWhile_cons, hx, if_true]
    rw [ih (fun c hc => ha c (List.mem_cons_of_mem _ hc))]

/-- Authority extraction after `//`: the host runs to the end of its
character class. -/
theorem urlAuthSplit_host (host rest : Str)
    (hh : ∀ c ∈ host, urlAuthChar c = true)
    (hr : rest = [] ∨ ∃ c r, rest = c :: r ∧ urlAuthChar c = false) :
    urlAuthSplit ('/' :: '/' :: (host ++ rest)) = (host, rest) := by
  have ht : (host ++ rest).takeWhile urlAuthChar = host := takeWhile_append_of_all hh hr
  show ((host ++ rest).takeWhile urlAuthChar,
      (host ++ rest).drop ((host ++ rest).takeWhile urlAuthChar).length) = (host, rest)
  rw [ht, List.drop_left]

/-- Path extraction: the path runs to the end of its character class. -/
theorem urlPathSplit_path (path rest : Str)
    (hp : ∀ c ∈ path, urlPathChar c = true)
    (hr : rest = [] ∨ ∃ c r, rest = c :: r ∧ urlPathChar c = false) :
    urlPathSplit (path ++ rest) = (path, rest) := by
  have ht : (path ++ rest).takeWhile urlPathChar = path := takeWhile_append_of_all hp hr
  show ((path ++ rest).takeWhile urlPathChar,
      (path ++ rest).drop ((path ++ rest).takeWhile urlPathChar).length) = (path, rest)
  rw [ht, List.drop_left]

/-- Query extraction: a hash-free query runs to the end of the input. -/
theorem urlQuerySplit_query (query : Str) (hq : ∀ c ∈ query, urlQueryChar c = true) :
    urlQuerySplit ('?' :: query) = (query, []) := by
  have ht : query.takeWhile urlQueryChar = query := by
    have := takeWhile_append_of_all (a := query) (b := []) hq (Or.inl rfl)
    rwa [List.append_nil] at this
  show (query.takeWhile urlQueryChar,
      query.drop (query.takeWhile urlQueryChar).length) = (query, [])
  rw [ht, List.drop_length]

/-- Full URL decomposition for a well-formed `ws`/`wss` URL built from a
host (no `/ ? # \` characters), a path (empty or slash-led, no `? #`) and an
optional query (no `#`). -/
theorem parseUrl_build (scheme host path query : Str)
    (hs : scheme = str ("ws") ∨ scheme = str ("wss"))
    (hh : ∀ c ∈ host, c ≠ '/' ∧ c ≠ '?' ∧ c ≠ '#' ∧ c ≠ '\\')
    (hp0 : path = [] ∨ ∃ p', path = '/' :: p')
    (hpc : ∀ c ∈ path, c ≠ '?' ∧ c ≠ '#')
    (hq : ∀ c ∈ query, c ≠ '#') :
    parseUrl (scheme ++ str ("://") ++ host ++ path
        ++ (if query = [] then [] else '?' :: query)) =
      { scheme := scheme, authority := host, path := path, query := query,
        fragment := [] } := by
  have hh' : ∀ c ∈ host, urlAuthChar c = true := by
    intro c hc
    obtain ⟨h1, h2, h3, h4⟩ := hh c hc
    simp [urlAuthChar, h1, h2, h3, h4]
  have hpc' : ∀ c ∈ path, urlPathChar c = true := by
    intro c hc
    obtain ⟨h1, h2⟩ := hpc c hc
    simp [urlPathChar, h1, h2]
  have hq' : ∀ c ∈ query, urlQueryChar c = true := by
    intro c hc
    simp [urlQueryChar, hq c hc]
  have hrest1 : path ++ (if query = [] then [] else '?' :: query) = [] ∨
      ∃ c r, path ++ (if query = [] then [] else '?' :: query) = c :: r ∧
        urlAuthChar c = false := by
    rcases hp0 with rfl | ⟨p', rfl⟩
    · by_cases hqe : query = []
      · simp [hqe]
      · right
        refine ⟨'?', query, ?_, by decide⟩
        simp [hqe]
    · right
      exact ⟨'/', p' ++ (if query = [] then [] else '?' :: query), by simp, by decide⟩
  have hrest2 : (if query = [] then [] else '?' :: query) = [] ∨
      ∃ c r, (if query = [] then [] else '?' :: query) = c :: r ∧
        urlPathChar c = false := by
    by_cases hqe : query = []
    · simp [hqe]
    · right
      exact ⟨'?', query, by simp [hqe], by decide⟩
  rcases hs with rfl | rfl
  · have hshape : str ("ws") ++ str ("://") ++ host ++ path
        ++ (if query = [] then [] else '?' :: query) =
        'w' :: 's' :: ':' :: '/' :: '/'
          :: (host ++ (path ++ (if query = [] then [] else '?' :: query))) := by
      simp [str]
    rw [hshape]
    have hscheme : urlSchemeSplit ('w' :: 's' :: ':' :: '/' :: '/'
        :: (host ++ (path ++ (if query = [] then [] else '?' :: query)))) =
        (str ("ws"), '/' :: '/'
          :: (host ++ (path ++ (if query = [] then [] else '?' :: query)))) := rfl
    unfold parseUrl
    rw [hscheme]
    rw [urlAuthSplit_host host _ hh' hrest1]
    rw [urlPathSplit_path path _ hpc' hrest2]
    by_cases hqe : query = []
    · subst hqe
      rfl
    · rw [if_neg hqe]
      rw [urlQuerySplit_query query hq']
      rfl
  · have hshape : str ("wss") ++ str ("://") ++ host ++ path
        ++ (if query = [] then [] else '?' :: query) =
        'w' :: 's' :: 's' :: ':' :: '/' :: '/'
          :: (host ++ (path ++ (if query = [] then [] else '?' :: query))) := by
      simp [str]
    rw [hshape]
    have hscheme : urlSchemeSplit ('w' :: 's' :: 's' :: ':' :: '/' :: '/'
        :: (host ++ (path ++ (if query = [] then [] else '?' :: query)))) =
        (str ("wss"), '/' :: '/'
          :: (host ++ (path ++ (if query = [] then [] else '?' :: query)))) := rfl
    unfold parseUrl
    rw [hscheme]
    rw [urlAuthSplit_host host _ hh' hrest1]
    rw [urlPathSplit_path path _ hpc' hrest2]
    by_cases hqe : query = []
    · subst hqe
      rfl
    · rw [if_neg hqe]
      rw [urlQuerySplit_query query hq']
      rfl

/-- C8 (amended): `open` accepts only the `ws` and `wss` schemes, raising the
input error before any state change (the regular expression matches every
string, so the scheme check is the only URL rejection); `open` outside
`Closed` fails with the invalid-state error; and for a well-formed URL the
authority splits at its first `:` into hostname and service with defaults 80
(`ws`) and 443 (`wss`), while the path is taken verbatim — possibly empty,
with no `/` default — with `?query` appended when a query is present.  The
spec's example URL yields host `example.com`, service `443`, path
`/chat?x=1`. -/
theorem c8_open_url_parsing :
    (wsOpen WsState.Closed (str ("wss://example.com/chat?x=1")) =
      .ok (WsState.Connecting,
        { scheme := str ("wss"), host := str ("example.com"),
          hostname := str ("example.com"), service := str ("443"),
          path := str ("/chat?x=1") })) ∧
    (∀ (st : WsState) (url : Str), st ≠ WsState.Closed →
      wsOpen st url = .error WsError.invalidState) ∧
    (∀ url : Str,
      ¬((parseUrl url).scheme = str ("ws") ∨ (parseUrl url).scheme = str ("wss")) →
      wsOpen WsState.Closed url = .error WsError.invalidScheme) ∧
    (∀ scheme host path query : Str,
      (scheme = str ("ws") ∨ scheme = str ("wss")) →
      (∀ c ∈ host, c ≠ '/' ∧ c ≠ '?' ∧ c ≠ '#' ∧ c ≠ '\\') →
      (path = [] ∨ ∃ p', path = '/' :: p') →
      (∀ c ∈ path, c ≠ '?' ∧ c ≠ '#') →
      (∀ c ∈ query, c ≠ '#') →
      wsOpen WsState.Closed (scheme ++ str ("://") ++ host ++ path
          ++ (if query = [] then [] else '?' :: query)) =
        .ok (WsState.Connecting,
          { scheme := scheme, host := host,
            hostname := (match findIdx ':' host with
                         | some pos => host.take pos
                         | none => host),
            service := (match findIdx ':' host with
                        | some pos => host.drop (pos + 1)
                        | none => if scheme = str ("ws") then str ("80") else str ("443")),
            path := path ++ (if query = [] then [] else '?' :: query) })) := by
  refine ⟨by decide, ?_, ?_, ?_⟩
  · intro st url hst
    unfold wsOpen
    rw [if_pos hst]
  · intro url hsch
    simp only [wsOpen]
    rw [if_neg (show ¬(WsState.Closed ≠ WsState.Closed) from fun h => h rfl)]
    rw [if_pos hsch]
  · intro scheme host path query hs hh hp0 hpc hq
    simp only [wsOpen]
    rw [if_neg (show ¬(WsState.Closed ≠ WsState.Closed) from fun h => h rfl)]
    rw [parseUrl_build scheme host path query hs hh hp0 hpc hq]
    rw [if_neg (not_not_intro hs)]
    rcases hf : findIdx ':' host with _ | pos <;> by_cases hqe : query = [] <;>
      simp [hf, hqe]

/-- Witness for C8 (amended) at a URL with an explicit port and a query, and
an `open` on a non-closed facade. -/
theorem c8_open_url_parsing_witness :
    (wsOpen WsState.Closed (str ("ws") ++ str ("://") ++ str ("example.com:8080")
        ++ str ("/x") ++ (if (str ("q=1") : Str) = [] then [] else '?' :: str ("q=1"))) =
      .ok (WsState.Connecting,
        { scheme := str ("ws"), host := str ("example.com:8080"),
          hostname := (match findIdx ':' (str ("example.com:8080")) with
                       | some pos => (str ("example.com:8080")).take pos
                       | none => str ("example.com:8080")),
          service := (match findIdx ':' (str ("example.com:8080")) with
                      | some pos => (str ("example.com:8080")).drop (pos + 1)
                      | none => if (str ("ws") : Str) = str ("ws") then str ("80")
                                else str ("443")),
          path := str ("/x") ++ (if (str ("q=1") : Str) = [] then []
                                 else '?' :: str ("q=1")) })) ∧
    wsOpen WsState.Open (str ("ws://a")) = .error WsError.invalidState :=
  ⟨c8_open_url_parsing.2.2.2 (str ("ws")) (str ("example.com:8080")) (str ("/x"))
      (str ("q=1")) (Or.inl rfl) (by decide) (Or.inr ⟨str ("x"), rfl⟩)
      (by decide) (by decide),
   c8_open_url_parsing.2.1 WsState.Open (str ("ws://a")) (by decide)⟩

/-- Cleanliness of a stored string piece: no newline and no trailing
whitespace.  Parsed fields always satisfy this, because input lines are
split at newlines and trimmed at the end. -/
def cleanStr (s : Str) : Prop := '\n' ∉ s ∧ trimEnd s = s

instance (s : Str) : Decidable (cleanStr s) := by
  unfold cleanStr
  infer_instance

/-- Structural sanity of one stored media section, as the parser produces
them. -/
def SaneMedia (m : Media) : Prop :=
  m.mid ≠ [] ∧ cleanStr m.mid ∧
  m.type ≠ str ("application") ∧ '\n' ∉ m.type ∧ ' ' ∉ m.type ∧
  cleanStr m.description ∧
  (∀ a ∈ m.attributes, cleanStr a ∧ attrKey a ∉ recognizedKeys)

instance (m : Media) : Decidable (SaneMedia m) := by
  unfold SaneMedia
  infer_instance

/-- Structural sanity of a description built by parsing a well-formed input:
media keys strictly increasing and at most `mediaCount` (which holds exactly
when at most one `application` section carried a mid), clean stored strings,
an uppercase fingerprint, ports and sizes in range, and candidate payloads
keyed `candidate` as the parser stores them. -/
def SaneDescription (d : Description) : Prop :=
  List.Pairwise (fun p q => p.1 < q.1) d.media ∧
  (∀ p ∈ d.media, p.1 < d.media.length + 1) ∧
  (∀ p ∈ d.media, SaneMedia p.2) ∧
  d.dataMid ≠ [] ∧ cleanStr d.dataMid ∧
  cleanStr d.iceUfrag ∧ cleanStr d.icePwd ∧
  (∀ fp ∈ d.fingerprint.toList, fp ≠ [] ∧ cleanStr fp ∧ mapToUpper fp = fp) ∧
  (∀ p ∈ d.sctpPort.toList, p < 65536) ∧
  (∀ n ∈ d.maxMessageSize.toList, n < 18446744073709551616) ∧
  (∀ c ∈ d.candidates, cleanStr c.raw ∧ attrKey c.raw = str ("candidate")) ∧
  '\n' ∉ d.sessionId

instance (d : Description) : Decidable (SaneDescription d) := by
  unfold SaneDescription
  infer_instance

/-- Dropping a satisfying prefix distributes over append when the first part
does not vanish. -/
theorem dropWhile_append_left {p : Char → Bool} {l l2 : Str}
    (h : l.dropWhile p ≠ []) : (l ++ l2).dropWhile p = l.dropWhile p ++ l2 := by
  induction l with
  | nil => exact absurd rfl h
  | cons c t ih =>
    by_cases hc : p c
    · rw [List.cons_append, List.dropWhile_cons_of_pos hc, List.dropWhile_cons_of_pos hc]
      exact ih (by rwa [List.dropWhile_cons_of_pos hc] at h)
    · rw [List.cons_append, List.dropWhile_cons_of_neg (by simpa using hc),
        List.dropWhile_cons_of_neg (by simpa using hc)]
      rfl

/-- Trimming distributes over append when the second part does not trim to
nothing. -/
theorem trimEnd_append_right (a b : Str) (hb : trimEnd b ≠ []) :
    trimEnd (a ++ b) = a ++ trimEnd b := by
  unfold trimEnd at hb ⊢
  rw [List.reverse_append]
  rw [dropWhile_append_left (fun h => hb (by rw [h]; rfl))]
  rw [List.reverse_append, List.reverse_reverse]

/-- Trimming a clean-tailed append is the identity. -/
theorem trimEnd_append_clean {a b : Str} (ha : trimEnd a = a) (hb : trimEnd b = b) :
    trimEnd (a ++ b) = a ++ b := by
  by_cases hbe : b = []
  · subst hbe
    rw [List.append_nil]
    exact ha
  · rw [trimEnd_append_right a b (by rw [hb]; exact hbe), hb]

/-- Trailing whitespace characters are trimmed away. -/
theorem trimEnd_append_space (l : Str) (c : Char) (hc : isSpaceC c = true) :
    trimEnd (l ++ [c]) = trimEnd l := by
  unfold trimEnd
  rw [List.reverse_append]
  simp [List.dropWhile_cons, hc]

/-- One parser iteration ignores a trailing carriage return on the raw
line. -/
theorem lineStep_cr (s : PState) (l : Str) :
    lineStep s (l ++ [(Char.ofNat 13)]) = lineStep s l := by
  unfold lineStep
  rw [trimEnd_append_space l (Char.ofNat 13) (by decide)]

/-- Folding the parser over lines with trailing carriage returns equals
folding it over the bare lines. -/
theorem foldl_stepE_cr (ls : List Str) (st : Except SdpError PState) :
    (ls.map (fun l => l ++ [(Char.ofNat 13)])).foldl stepE st = ls.foldl stepE st := by
  induction ls generalizing st with
  | nil => rfl
  | cons l t ih =>
    rw [List.map_cons, List.foldl_cons, List.foldl_cons]
    have : stepE st (l ++ [(Char.ofNat 13)]) = stepE st l := by
      cases st with
      | error e => rfl
      | ok s => exact lineStep_cr s l
    rw [this]
    exact ih _

/-- Splitting at a newline after a newline-free prefix. -/
theorem splitOnNl_append_cons (l rest : Str) (hl : '\n' ∉ l) :
    splitOnNl (l ++ '\n' :: rest) = l :: splitOnNl rest := by
  induction l with
  | nil => simp [splitOnNl]
  | cons c t ih =>
    have hc : c ≠ '\n' := fun he => hl (he ▸ List.mem_cons_self _ _)
    rw [List.cons_append]
    conv_lhs => rw [splitOnNl]
    rw [if_neg hc]
    rw [ih (fun hm => hl (List.mem_cons_of_mem _ hm))]

/-- The `getline` decomposition of an emission: joining newline-free lines
with `\r\n` and splitting again yields the lines with a trailing `\r`. -/
theorem splitLines_flatMap (ls : List Str) (h : ∀ l ∈ ls, '\n' ∉ l) :
    splitLines (ls.flatMap (fun l => l ++ str ("\r\n"))) =
      ls.map (fun l => l ++ [(Char.ofNat 13)]) := by
  have core : ∀ (ls : List Str), (∀ l ∈ ls, '\n' ∉ l) →
      splitOnNl (ls.flatMap (fun l => l ++ str ("\r\n"))) =
        ls.map (fun l => l ++ [(Char.ofNat 13)]) ++ [[]] := by
    intro ls hls
    induction ls with
    | nil => rfl
    | cons l t ih =>
      have hshape : (l :: t).flatMap (fun l => l ++ str ("\r\n")) =
          (l ++ [(Char.ofNat 13)]) ++ '\n' :: t.flatMap (fun l => l ++ str ("\r\n")) := by
        simp [str]
      rw [hshape]
      have hnl : '\n' ∉ l ++ [(Char.ofNat 13)] := by
        intro hm
        rcases List.mem_append.mp hm with hm1 | hm2
        · exact hls l (List.mem_cons_self _ _) hm1
        · simp at hm2
      rw [splitOnNl_append_cons _ _ hnl]
      rw [ih (fun q hq => hls q (List.mem_cons_of_mem _ hq))]
      rfl
  unfold splitLines
  rw [core ls h]
  rw [List.getLast?_concat]
  simp [List.dropLast_concat]

/-- Parsing an emission is parsing its line list: the `\r\n` terminators are
split off and the `\r` is trimmed by each iteration. -/
theorem parse_generateSdp_eq_parseLines (d : Description) (t : DType) (r : Role) (sid : Str)
    (hnl : ∀ l ∈ sdpLines d, '\n' ∉ l) :
    Description.parse (generateSdp d (str ("\r\n"))) t r sid =
      Description.parseLines (sdpLines d) t r sid := by
  unfold Description.parse generateSdp
  rw [splitLines_flatMap _ hnl]
  unfold Description.parseLines
  rw [foldl_stepE_cr]

/-- Decimal digit characters are digits. -/
theorem digitChar_digit (k : Nat) : isDigitC (digitChar k) = true := by
  unfold digitChar
  split <;> decide

/-- The digit character of a small number has that value. -/
theorem digitVal_digitChar (k : Nat) (h : k < 10) : digitVal (digitChar k) = k := by
  interval_cases k <;> decide

/-- Every character of a decimal rendering is a digit. -/
theorem toDecimal_digits (n : Nat) : ∀ c ∈ toDecimal n, isDigitC c = true := by
  induction n using Nat.strong_induction_on with
  | _ n ih =>
    rw [toDecimal]
    split_ifs with h
    · intro c hc
      simp at hc
      subst hc
      exact digitChar_digit n
    · intro c hc
      rcases List.mem_append.mp hc with h1 | h2
      · exact ih (n / 10) (by omega) c h1
      · simp at h2
        subst h2
        exact digitChar_digit _

/-- Decimal renderings are nonempty. -/
theorem toDecimal_ne_nil (n : Nat) : toDecimal n ≠ [] := by
  rw [toDecimal]
  split_ifs <;> simp

/-- Reading back one appended digit. -/
theorem digitsToNat_append (a : Str) (c : Char) :
    digitsToNat (a ++ [c]) = digitsToNat a * 10 + digitVal c := by
  unfold digitsToNat
  rw [List.foldl_append]
  rfl

/-- Reading back a decimal rendering recovers the number. -/
theorem digitsToNat_toDecimal (n : Nat) : digitsToNat (toDecimal n) = n := by
  induction n using Nat.strong_induction_on with
  | _ n ih =>
    rw [toDecimal]
    split_ifs with h
    · show digitsToNat [digitChar n] = n
      unfold digitsToNat
      simp [digitVal_digitChar n h]
    · rw [digitsToNat_append, ih (n / 10) (by omega), digitVal_digitChar (n % 10) (by omega)]
      omega

/-- Digits are not whitespace. -/
theorem digit_not_space (c : Char) (h : isDigitC c = true) : isSpaceC c = false := by
  simp only [isDigitC, Bool.and_eq_true, decide_eq_true_eq] at h
  obtain ⟨h1, h2⟩ := h
  unfold isSpaceC
  have f1 : (c == ' ') = false :=
    beq_eq_false_iff_ne.mpr (fun he => by subst he; exact absurd h1 (by decide))
  have f2 : (c == '\t') = false :=
    beq_eq_false_iff_ne.mpr (fun he => by subst he; exact absurd h1 (by decide))
  have f3 : (c == '\n') = false :=
    beq_eq_false_iff_ne.mpr (fun he => by subst he; exact absurd h1 (by decide))
  have f4 : (c == '\x0b') = false :=
    beq_eq_false_iff_ne.mpr (fun he => by subst he; exact absurd h1 (by decide))
  have f5 : (c == '\x0c') = false :=
    beq_eq_false_iff_ne.mpr (fun he => by subst he; exact absurd h1 (by decide))
  have f6 : (c == '\r') = false :=
    beq_eq_false_iff_ne.mpr (fun he => by subst he; exact absurd h1 (by decide))
  rw [f1, f2, f3, f4, f5, f6]
  rfl

/-- Reading a decimal rendering with `stoul` recovers a 64-bit value. -/
theorem stoul_toDecimal (n : Nat) (hn : n < 18446744073709551616) :
    stoul (toDecimal n) = .ok n := by
  have hdig := toDecimal_digits n
  have hne := toDecimal_ne_nil n
  have hdw : (toDecimal n).dropWhile isSpaceC = toDecimal n := by
    cases hd : toDecimal n with
    | nil => rfl
    | cons c t =>
      rw [List.dropWhile_cons_of_neg]
      rw [digit_not_space c (hdig c (by rw [hd]; exact List.mem_cons_self _ _))]
      simp
  have htw : (toDecimal n).takeWhile isDigitC = toDecimal n :=
    List.takeWhile_eq_self_iff.mpr hdig
  unfold stoul
  rw [hdw]
  cases hd : toDecimal n with
  | nil => exact absurd hd hne
  | cons c t =>
    have hcdig : isDigitC c = true := hdig c (by rw [hd]; exact List.mem_cons_self _ _)
    have hcm : ¬(c = '-') := fun he => by
      rw [he] at hcdig
      exact absurd hcdig (by decide)
    have hcp : ¬(c = '+') := fun he => by
      rw [he] at hcdig
      exact absurd hcdig (by decide)
    show (if c = '-' then stoulDigits t true
          else if c = '+' then stoulDigits t false
          else stoulDigits (c :: t) false) = .ok n
    rw [if_neg hcm, if_neg hcp, ← hd]
    unfold stoulDigits
    rw [htw]
    rw [if_neg hne, digitsToNat_toDecimal, if_neg (by omega : ¬n ≥ 18446744073709551616)]
    rfl

/-- Emplacing above every existing key appends. -/
theorem mapEmplace_append (k : Nat) (v : Media) (l : List (Nat × Media))
    (h : ∀ p ∈ l, p.1 < k) : mapEmplace k v l = l ++ [(k, v)] := by
  induction l with
  | nil => rfl
  | cons p rest ih =>
    rcases p with ⟨k', v'⟩
    have hk' : k' < k := h (k', v') (List.mem_cons_self _ _)
    unfold mapEmplace
    rw [if_neg (by omega), if_neg (by omega)]
    rw [ih (fun q hq => h q (List.mem_cons_of_mem _ hq))]
    rfl

/-- Lookup at the head key. -/
theorem mapFind_cons_self (k : Nat) (v : Media) (rest : List (Nat × Media)) :
    mapFind k ((k, v) :: rest) = some v := by
  simp [mapFind]

/-- Lookup skips a head with a different key. -/
theorem mapFind_cons_ne {k k' : Nat} (v : Media) (rest : List (Nat × Media))
    (h : k ≠ k') : mapFind k ((k', v) :: rest) = mapFind k rest := by
  simp [mapFind, h]

/-- The media section reconstructed by reparsing an emitted media section:
the emitter's `a=bundle-only` line is kept verbatim in front of the original
attributes. -/
def reconMedia (m : Media) : Media :=
  { type := m.type, description := m.description, mid := m.mid,
    attributes := str ("bundle-only") :: m.attributes }

/-- Media entries reconstructed by the reparse of the emitted sections at
indices below `k`. -/
def reconUpTo (d : Description) (k : Nat) : List (Nat × Media) :=
  (List.range k).filterMap fun i => (mapFind i d.media).map fun m => (i, reconMedia m)

/-- Unfolding of the reconstruction at a further index. -/
theorem reconUpTo_succ (d : Description) (k : Nat) :
    reconUpTo d (k + 1) = reconUpTo d k ++
      (match mapFind k d.media with
       | some m => [(k, reconMedia m)]
       | none => []) := by
  unfold reconUpTo
  rw [List.range_succ, List.filterMap_append]
  congr 1
  cases hm : mapFind k d.media with
  | none => simp [List.filterMap_cons, hm]
  | some m => simp [List.filterMap_cons, hm]

/-- Keys of the partial reconstruction are below its bound. -/
theorem reconUpTo_keys_lt (d : Description) (k : Nat) :
    ∀ p ∈ reconUpTo d k, p.1 < k := by
  intro p hp
  unfold reconUpTo at hp
  rcases List.mem_filterMap.mp hp with ⟨i, hi, hf⟩
  rcases hmf : mapFind i d.media with _ | m
  · rw [hmf] at hf
    exact absurd hf (by simp)
  · rw [hmf] at hf
    simp at hf
    rw [← hf]
    exact List.mem_range.mp hi

/-- Walking a strictly sorted association list over its covering index range
in order reproduces the list. -/
theorem filterMap_range'_sorted (g : Media → Media) (l : List (Nat × Media)) (a k : Nat)
    (hs : List.Pairwise (fun p q => p.1 < q.1) l)
    (hlo : ∀ p ∈ l, a ≤ p.1)
    (hhi : ∀ p ∈ l, p.1 < a + k) :
    (List.range' a k).filterMap (fun i => (mapFind i l).map fun m => (i, g m)) =
      l.map fun p => (p.1, g p.2) := by
  induction k generalizing a l with
  | zero =>
    cases l with
    | nil => rfl
    | cons p rest =>
      exact absurd (hhi p (List.mem_cons_self _ _))
        (by have := hlo p (List.mem_cons_self _ _); omega)
  | succ k ih =>
    rw [List.range'_succ, List.filterMap_cons]
    cases l with
    | nil =>
      have h0 : (mapFind a ([] : List (Nat × Media))).map (fun m => (a, g m)) = none := rfl
      rw [h0]
      exact ih [] (a + 1) (by simp) (by simp) (by simp)
    | cons p rest =>
      rcases p with ⟨k0, m0⟩
      obtain ⟨hhead, htail⟩ := List.pairwise_cons.mp hs
      have hk0 : a ≤ k0 := hlo (k0, m0) (List.mem_cons_self _ _)
      by_cases hka : k0 = a
      · subst hka
        rw [mapFind_cons_self]
        simp only [Option.map_some']
        have hcongr : (List.range' (k0 + 1) k).filterMap
            (fun i => (mapFind i ((k0, m0) :: rest)).map fun m => (i, g m)) =
            (List.range' (k0 + 1) k).filterMap
            (fun i => (mapFind i rest).map fun m => (i, g m)) := by
          apply List.filterMap_congr
          intro i hi
          rcases List.mem_range'.mp hi with ⟨j, hj, hij⟩
          rw [mapFind_cons_ne _ _ (by omega)]
        rw [List.map_cons]
        rw [hcongr]
        rw [ih rest (k0 + 1) htail
          (fun q hq => hhead q hq)
          (fun q hq => by have := hhi q (List.mem_cons_of_mem _ hq); omega)]
      · have hfa : mapFind a ((k0, m0) :: rest) = none := by
          apply mapFind_eq_none.mpr
          intro hmem
          rcases List.mem_map.mp hmem with ⟨q, hq, hqa⟩
          rcases List.mem_cons.mp hq with he | hq'
          · subst he
            exact hka hqa
          · have := hhead q hq'
            have := hlo (k0, m0) (List.mem_cons_self _ _)
            omega
        rw [hfa]
        exact ih ((k0, m0) :: rest) (a + 1)
          hs
          (by
            intro q hq
            rcases List.mem_cons.mp hq with he | hq'
            · subst he
              omega
            · have := hhead q hq'
              omega)
          (fun q hq => by have := hhi q hq; omega)

/-- Full reconstruction of a sorted bounded media map. -/
theorem reconUpTo_full (d : Description)
    (hs : List.Pairwise (fun p q => p.1 < q.1) d.media)
    (hbd : ∀ p ∈ d.media, p.1 < d.media.length + 1) :
    reconUpTo d (d.media.length + 1) = d.media.map fun p => (p.1, reconMedia p.2) := by
  unfold reconUpTo
  rw [List.range_eq_range']
  exact filterMap_range'_sorted reconMedia d.media 0 (d.media.length + 1) hs
    (fun p _ => Nat.zero_le _) (by simpa using hbd)

/-- Unfolding of the error-absorbing step on a live state. -/
theorem stepE_ok (s : PState) (l : Str) : stepE (.ok s) l = lineStep s l := rfl

/-- One parser iteration ignores a line that after trimming starts with
neither `m=` nor `a=`. -/
theorem lineStep_other (s : PState) (l : Str)
    (hm : matchPfx (str ("m=")) (trimEnd l) = false)
    (ha : matchPfx (str ("a=")) (trimEnd l) = false) :
    lineStep s l = .ok s := by
  unfold lineStep
  rw [hm, ha]
  simp

/-- One parser iteration on an `m=` line closes the pending section and opens
a new one. -/
theorem lineStep_mline (s : PState) (l : Str)
    (hm : matchPfx (str ("m=")) (trimEnd l) = true) :
    lineStep s l = .ok { flushCurrent s (trimEnd l) with
      current := some (Media.ofMline ((trimEnd l).drop 2)) } := by
  unfold lineStep
  rw [hm]
  simp

/-- One parser iteration on an `a=` line dispatches on the attribute. -/
theorem lineStep_aline (s : PState) (l : Str)
    (ha : matchPfx (str ("a=")) (trimEnd l) = true) :
    lineStep s l = attrStep s ((trimEnd l).drop 2) := by
  unfold lineStep
  rw [matchPfx_a_not_m _ ha, ha]
  simp

/-- Attribute dispatch for `mid`. -/
theorem attrStep_key_mid (s : PState) (attr : Str) (hk : attrKey attr = str ("mid")) :
    attrStep s attr = (match s.current with
      | some m => .ok { s with current := some { m with mid := attrValue attr } }
      | none => .ok s) := by
  unfold attrStep
  rw [hk, if_pos rfl]

/-- Attribute dispatch for `setup`. -/
theorem attrStep_key_setup (s : PState) (attr : Str) (hk : attrKey attr = str ("setup")) :
    attrStep s attr = .ok { s with d := { s.d with role := setupRole (attrValue attr) } } := by
  unfold attrStep
  rw [hk, if_neg (by decide), if_pos rfl]

/-- Attribute dispatch for `fingerprint`. -/
theorem attrStep_key_fingerprint (s : PState) (attr : Str)
    (hk : attrKey attr = str ("fingerprint")) :
    attrStep s attr =
      (if matchPfx (str ("sha-256 ")) (attrValue attr) = true then
        .ok { s with d := { s.d with
          fingerprint := some (mapToUpper ((attrValue attr).drop 8)) } }
      else
        .ok { s with warnings :=
          s.warnings ++ [Warning.unknownFingerprintType (attrValue attr)] }) := by
  unfold attrStep
  rw [hk, if_neg (by decide), if_neg (by decide), if_pos rfl]

/-- Attribute dispatch for `ice-ufrag`. -/
theorem attrStep_key_ufrag (s : PState) (attr : Str) (hk : attrKey attr = str ("ice-ufrag")) :
    attrStep s attr = .ok { s with d := { s.d with iceUfrag := attrValue attr } } := by
  unfold attrStep
  rw [hk, if_neg (by decide), if_neg (by decide), if_neg (by decide), if_pos rfl]

/-- Attribute dispatch for `ice-pwd`. -/
theorem attrStep_key_pwd (s : PState) (attr : Str) (hk : attrKey attr = str ("ice-pwd")) :
    attrStep s attr = .ok { s with d := { s.d with icePwd := attrValue attr } } := by
  unfold attrStep
  rw [hk, if_neg (by decide), if_neg (by decide), if_neg (by decide), if_neg (by decide),
    if_pos rfl]

/-- Attribute dispatch for `sctp-port`. -/
theorem attrStep_key_sctp (s : PState) (attr : Str) (hk : attrKey attr = str ("sctp-port")) :
    attrStep s attr = (match stoul (attrValue attr) with
      | .error e => .error e
      | .ok n => .ok { s with d := { s.d with sctpPort := some (n % 65536) } }) := by
  unfold attrStep
  rw [hk, if_neg (by decide), if_neg (by decide), if_neg (by decide), if_neg (by decide),
    if_neg (by decide), if_pos rfl]

/-- Attribute dispatch for `max-message-size`. -/
theorem attrStep_key_mms (s : PState) (attr : Str)
    (hk : attrKey attr = str ("max-message-size")) :
    attrStep s attr = (match stoul (attrValue attr) with
      | .error e => .error e
      | .ok n => .ok { s with d := { s.d with maxMessageSize := some n } }) := by
  unfold attrStep
  rw [hk, if_neg (by decide), if_neg (by decide), if_neg (by decide), if_neg (by decide),
    if_neg (by decide), if_neg (by decide), if_pos rfl]

/-- Attribute dispatch for `candidate`. -/
theorem attrStep_key_candidate (s : PState) (attr : Str)
    (hk : attrKey attr = str ("candidate")) :
    attrStep s attr = .ok { s with d := s.d.addCandidate { raw := attr, mid :=
      match s.current with
      | some m => m.mid
      | none => s.d.dataMid } } := by
  unfold attrStep
  rw [hk, if_neg (by decide), if_neg (by decide), if_neg (by decide), if_neg (by decide),
    if_neg (by decide), if_neg (by decide), if_neg (by decide), if_pos rfl]

/-- Attribute dispatch for `end-of-candidates`. -/
theorem attrStep_key_eoc (s : PState) (attr : Str)
    (hk : attrKey attr = str ("end-of-candidates")) :
    attrStep s attr = .ok { s with d := { s.d with ended := true } } := by
  unfold attrStep
  rw [hk, if_neg (by decide), if_neg (by decide), if_neg (by decide), if_neg (by decide),
    if_neg (by decide), if_neg (by decide), if_neg (by decide), if_neg (by decide),
    if_pos rfl]

/-- An unrecognized attribute with a pending media section is retained
verbatim on that section. -/
theorem attrStep_attr_append (s : PState) (attr : Str) (m : Media)
    (hc : s.current = some m) (hk : attrKey attr ∉ recognizedKeys) :
    attrStep s attr =
      .ok { s with current := some { m with attributes := m.attributes ++ [attr] } } := by
  simp only [recognizedKeys, List.mem_cons, not_or] at hk
  obtain ⟨h1, h2, h3, h4, h5, h6, h7, h8, h9, _⟩ := hk
  unfold attrStep
  rw [hc]
  simp [h1, h2, h3, h4, h5, h6, h7, h8, h9]

/-- Trimming does not touch a string with a clean nonempty literal tail. -/
theorem trimEnd_append_lit (x lit : Str) (h1 : trimEnd lit = lit) (h2 : lit ≠ []) :
    trimEnd (x ++ lit) = x ++ lit := by
  rw [trimEnd_append_right x lit (by rw [h1]; exact h2), h1]

/-- Dropping a prefix of non-satisfying characters is the identity. -/
theorem dropWhile_eq_self_of_none {p : Char → Bool} {l : Str}
    (h : ∀ c ∈ l, p c = false) : l.dropWhile p = l := by
  cases l with
  | nil => rfl
  | cons c t =>
    rw [List.dropWhile_cons_of_neg]
    rw [h c (List.mem_cons_self _ _)]
    simp

/-- Trimming is the identity on whitespace-free strings. -/
theorem trimEnd_of_no_space {l : Str} (h : ∀ c ∈ l, isSpaceC c = false) :
    trimEnd l = l := by
  unfold trimEnd
  rw [dropWhile_eq_self_of_none (fun c hc => h c (List.mem_reverse.mp hc))]
  exact List.reverse_reverse l

/-- Decimal renderings have no whitespace to trim. -/
theorem trimEnd_toDecimal (n : Nat) : trimEnd (toDecimal n) = toDecimal n :=
  trimEnd_of_no_space (fun c hc => digit_not_space c (toDecimal_digits n c hc))

/-- Decimal renderings contain no newline. -/
theorem toDecimal_no_nl (n : Nat) : '\n' ∉ toDecimal n := by
  intro hm
  have := toDecimal_digits n '\n' hm
  exact absurd this (by decide)

/-- The mid enumeration glued with spaces is clean and nonempty when every
mid is. -/
theorem trimEnd_flatMap_mids (mids : List Str)
    (h : ∀ m ∈ mids, m ≠ [] ∧ trimEnd m = m) (hne : mids ≠ []) :
    trimEnd (mids.flatMap (fun m => ' ' :: m)) = mids.flatMap (fun m => ' ' :: m) ∧
    mids.flatMap (fun m => ' ' :: m) ≠ [] := by
  induction mids with
  | nil => exact absurd rfl hne
  | cons m t ih =>
    obtain ⟨hm1, hm2⟩ := h m (List.mem_cons_self _ _)
    cases t with
    | nil =>
      constructor
      · show trimEnd ([' '] ++ m ++ []) = [' '] ++ m ++ []
        rw [List.append_nil, trimEnd_append_right [' '] m (by rw [hm2]; exact hm1), hm2]
      · simp
    | cons m2 t2 =>
      obtain ⟨ih1, ih2⟩ := ih (fun q hq => h q (List.mem_cons_of_mem _ hq)) (by simp)
      have hshape : (m :: m2 :: t2).flatMap (fun m => ' ' :: m) =
          (' ' :: m) ++ (m2 :: t2).flatMap (fun m => ' ' :: m) := by
        simp
      rw [hshape]
      constructor
      · rw [trimEnd_append_right (' ' :: m) _ (by rw [ih1]; exact ih2), ih1]
      · simp

/-- Bundle mids of a sane description are clean and nonempty. -/
theorem bundleMids_clean (d : Description) (hsane : SaneDescription d) :
    ∀ m ∈ bundleMids d, m ≠ [] ∧ trimEnd m = m := by
  obtain ⟨_, _, hmed, hdm1, hdm2, _⟩ := hsane
  intro m hm
  rcases List.mem_map.mp hm with ⟨i, _, hfi⟩
  rcases hfind : mapFind i d.media with _ | mi
  · rw [hfind] at hfi
    simp only [] at hfi
    rw [← hfi]
    exact ⟨hdm1, hdm2.2⟩
  · rw [hfind] at hfi
    simp only [] at hfi
    obtain ⟨hne, hclean, _⟩ := hmed (i, mi) (mapFind_mem hfind)
    rw [← hfi]
    exact ⟨hne, hclean.2⟩

/-- The description state reached by the reparse of an emission after its
session-level lines: the hinted type, the emitted role, credentials and
fingerprint, and a data section back at its defaults. -/
def sessDesc (d : Description) (t2 : DType) (r2 : Role) (sid2 : Str) : Description :=
  { type := t2, role := d.role, sessionId := sid2,
    iceUfrag := d.iceUfrag, icePwd := d.icePwd, fingerprint := d.fingerprint,
    dataMid := str ("data"), sctpPort := none, maxMessageSize := none,
    media := [], candidates := [], ended := false }

/-- The pending media section built by the reparse of the emitted section at
index `j`. -/
def pendingAt (d : Description) (j : Nat) : Media :=
  match mapFind j d.media with
  | some m => reconMedia m
  | none =>
    { type := str ("application"), description := str ("UDP/DTLS/SCTP webrtc-datachannel"),
      mid := d.dataMid,
      attributes := (if d.media.isEmpty then [] else [str ("bundle-only")])
        ++ [str ("sendrecv")] }

/-- Whether one of the emitted sections at indices below `j` is the data
section. -/
def dataSeen (d : Description) (j : Nat) : Bool :=
  (List.range j).any fun i => (mapFind i d.media).isNone

/-- The description state during the reparse after the emitted sections at
indices below `k` have been processed (`k ≥ 1`): sections at indices below
`k - 1` are closed, index `k - 1` is still pending; the data fields are
restored as soon as the data section is reached (ports while its lines are
read, the mid when the section is closed). -/
def chunkDesc (d : Description) (t2 : DType) (r2 : Role) (sid2 : Str) (k : Nat) : Description :=
  { sessDesc d t2 r2 sid2 with
    media := reconUpTo d (k - 1),
    dataMid := if dataSeen d (k - 1) then d.dataMid else str ("data"),
    sctpPort := if dataSeen d k then d.sctpPort else none,
    maxMessageSize := if dataSeen d k then d.maxMessageSize else none }

/-- The full reparse state before the emitted section chunk at index `k`. -/
def chunkState (d : Description) (t2 : DType) (r2 : Role) (sid2 : Str) : Nat → PState
  | 0 => { d := sessDesc d t2 r2 sid2, current := none, mlineIndex := 0, warnings := [] }
  | k + 1 =>
    { d := chunkDesc d t2 r2 sid2 (k + 1), current := some (pendingAt d k),
      mlineIndex := k, warnings := [] }

/-- The mid of the last emitted m-line section: the media stored at index
`mediaCount` when it exists, the data mid otherwise.  Reparsed candidates are
all attached to it. -/
def lastSectionMid (d : Description) : Str :=
  match mapFind d.media.length d.media with
  | some m => m.mid
  | none => d.dataMid

/-- A prefix matches itself followed by anything. -/
theorem matchPfx_refl_append (p rest : Str) : matchPfx p (p ++ rest) = true := by
  induction p with
  | nil => rfl
  | cons c t ih =>
    rw [List.cons_append]
    unfold matchPfx
    rw [beq_self_eq_true, Bool.true_and]
    exact ih

/-- A two-character prefix fails on a line with a different head. -/
theorem matchPfx_two_head (p q c : Char) (l : Str) (h : (p == c) = false) :
    matchPfx [p, q] (c :: l) = false := by
  unfold matchPfx
  rw [h]
  rfl

/-- One parser iteration ignores a line whose trimmed head is neither `m`
nor `a`. -/
theorem lineStep_ignored (s : PState) (l : Str) (c : Char) (rest : Str)
    (ht : trimEnd l = c :: rest) (hm : (('m' : Char) == c) = false)
    (ha : (('a' : Char) == c) = false) :
    lineStep s l = .ok s := by
  apply lineStep_other
  · rw [(show str ("m=") = ['m', '='] from rfl), ht]
    exact matchPfx_two_head _ _ _ _ hm
  · rw [(show str ("a=") = ['a', '='] from rfl), ht]
    exact matchPfx_two_head _ _ _ _ ha

/-- The key of a colon-separated attribute. -/
theorem attrKey_split (k v : Str) (hk : ':' ∉ k) : attrKey (k ++ ':' :: v) = k := by
  induction k with
  | nil =>
    show attrKey (':' :: v) = []
    unfold attrKey
    rw [if_pos rfl]
  | cons c t ih =>
    have hc : ¬(c = ':') := fun he => hk (by rw [he]; exact List.mem_cons_self _ _)
    rw [List.cons_append]
    unfold attrKey
    rw [if_neg hc, ih (fun hm => hk (List.mem_cons_of_mem _ hm))]

/-- The value of a colon-separated attribute. -/
theorem attrValue_split (k v : Str) (hk : ':' ∉ k) : attrValue (k ++ ':' :: v) = v := by
  induction k with
  | nil =>
    show attrValue (':' :: v) = v
    unfold attrValue
    rw [if_pos rfl]
  | cons c t ih =>
    have hc : ¬(c = ':') := fun he => hk (by rw [he]; exact List.mem_cons_self _ _)
    rw [List.cons_append]
    unfold attrValue
    rw [if_neg hc, ih (fun hm => hk (List.mem_cons_of_mem _ hm))]

/-- A key-colon-value attribute with a trimmed value is itself trimmed. -/
theorem trim_key_colon_val (k v : Str) (hv : trimEnd v = v) :
    trimEnd (k ++ ':' :: v) = k ++ ':' :: v := by
  by_cases hve : v = []
  · subst hve
    rw [(show (':' :: ([] : Str)) = [':'] from rfl)]
    rw [trimEnd_append_right k [':'] (by decide)]
    rw [(show trimEnd [':'] = [':'] from by decide)]
  · have h1 : k ++ ':' :: v = (k ++ [':']) ++ v := by simp
    rw [h1, trimEnd_append_right (k ++ [':']) v (by rw [hv]; exact hve), hv]

/-- Dropping the `a=` prefix of an attribute line. -/
theorem drop_two_ae (rest : Str) : (str ("a=") ++ rest).drop 2 = rest := rfl

/-- Dropping the `m=` prefix of an m-line. -/
theorem drop_two_me (rest : Str) : (str ("m=") ++ rest).drop 2 = rest := rfl

/-- One parser iteration on a trimmed attribute line is the attribute
dispatch. -/
theorem lineStep_attr (s : PState) (rest : Str) (hre : trimEnd rest = rest) :
    lineStep s (str ("a=") ++ rest) = attrStep s rest := by
  have ht : trimEnd (str ("a=") ++ rest) = str ("a=") ++ rest := by
    by_cases hne : rest = []
    · subst hne
      rw [List.append_nil]
      decide
    · rw [trimEnd_append_right _ _ (by rw [hre]; exact hne), hre]
  rw [lineStep_aline s _ (by rw [ht]; exact matchPfx_refl_append _ _), ht, drop_two_ae]

/-- One parser iteration on a key-colon-value attribute line. -/
theorem lineStep_attr_kv (s : PState) (k v : Str) (hv : trimEnd v = v) :
    lineStep s (str ("a=") ++ (k ++ ':' :: v)) = attrStep s (k ++ ':' :: v) :=
  lineStep_attr s _ (trim_key_colon_val k v hv)

/-- Closing with no pending section is a no-op. -/
theorem flushCurrent_none (s : PState) (line : Str) (hc : s.current = none) :
    flushCurrent s line = s := by
  unfold flushCurrent
  rw [hc]

/-- Closing a pending section that has a mid stores it and bumps the m-line
index. -/
theorem flushCurrent_mid_ne (s : PState) (line : Str) (m : Media)
    (hc : s.current = some m) (hmid : m.mid ≠ []) :
    flushCurrent s line =
      { s with
        d := if m.type = str ("application") then { s.d with dataMid := m.mid }
             else { s.d with media := mapEmplace s.mlineIndex m s.d.media },
        mlineIndex := s.mlineIndex + 1 } := by
  unfold flushCurrent
  rw [hc]
  simp [hmid]

/-- Reading back an emitted setup role recovers the role. -/
theorem setupRole_roleToString (r : Role) : setupRole (roleToString r) = r := by
  cases r <;> decide

/-- Emitted role strings are trimmed. -/
theorem trimEnd_roleToString (r : Role) : trimEnd (roleToString r) = roleToString r := by
  cases r <;> decide

/-- The description part of the initial parser state. -/
theorem initPState_d (t : DType) (r : Role) (sid : Str) :
    (initPState t r sid).d =
      { type := t,
        role := if t = DType.Answer ∧ r = Role.ActPass then Role.Passive else r,
        sessionId := sid, iceUfrag := [], icePwd := [], fingerprint := none,
        dataMid := str ("data"), sctpPort := none, maxMessageSize := none,
        media := [], candidates := [], ended := false } := by
  unfold initPState Description.hintType
  cases t <;> cases r <;> rfl

/-- Unfolding the data-section search at a further index. -/
theorem dataSeen_succ (d : Description) (j : Nat) :
    dataSeen d (j + 1) = (dataSeen d j || (mapFind j d.media).isNone) := by
  unfold dataSeen
  rw [List.range_succ, List.any_append]
  simp

/-- One parser iteration on an `a=mid:` line. -/
theorem lineStep_mid_line (s : PState) (v : Str) (hv : trimEnd v = v) :
    lineStep s (str ("a=mid:") ++ v) =
      (match s.current with
       | some m => .ok { s with current := some { m with mid := v } }
       | none => .ok s) := by
  have hform : str ("a=mid:") ++ v = str ("a=") ++ (str ("mid") ++ ':' :: v) := rfl
  rw [hform, lineStep_attr_kv s _ _ hv,
    attrStep_key_mid s _ (attrKey_split _ _ (by decide)), attrValue_split _ _ (by decide)]

/-- One parser iteration on an emitted `a=setup:` line restores the role. -/
theorem lineStep_setup_line (s : PState) (r : Role) :
    lineStep s (str ("a=setup:") ++ roleToString r) =
      .ok { s with d := { s.d with role := r } } := by
  have hform : str ("a=setup:") ++ roleToString r =
      str ("a=") ++ (str ("setup") ++ ':' :: roleToString r) := rfl
  rw [hform, lineStep_attr_kv s _ _ (trimEnd_roleToString r),
    attrStep_key_setup s _ (attrKey_split _ _ (by decide)),
    attrValue_split _ _ (by decide), setupRole_roleToString]

/-- One parser iteration on an `a=ice-ufrag:` line. -/
theorem lineStep_ufrag_line (s : PState) (v : Str) (hv : trimEnd v = v) :
    lineStep s (str ("a=ice-ufrag:") ++ v) =
      .ok { s with d := { s.d with iceUfrag := v } } := by
  have hform : str ("a=ice-ufrag:") ++ v = str ("a=") ++ (str ("ice-ufrag") ++ ':' :: v) := rfl
  rw [hform, lineStep_attr_kv s _ _ hv,
    attrStep_key_ufrag s _ (attrKey_split _ _ (by decide)), attrValue_split _ _ (by decide)]

/-- One parser iteration on an `a=ice-pwd:` line. -/
theorem lineStep_pwd_line (s : PState) (v : Str) (hv : trimEnd v = v) :
    lineStep s (str ("a=ice-pwd:") ++ v) =
      .ok { s with d := { s.d with icePwd := v } } := by
  have hform : str ("a=ice-pwd:") ++ v = str ("a=") ++ (str ("ice-pwd") ++ ':' :: v) := rfl
  rw [hform, lineStep_attr_kv s _ _ hv,
    attrStep_key_pwd s _ (attrKey_split _ _ (by decide)), attrValue_split _ _ (by decide)]

/-- One parser iteration on an emitted `a=fingerprint:sha-256` line. -/
theorem lineStep_fpr_line (s : PState) (v : Str) (hv : trimEnd v = v) (hne : v ≠ []) :
    lineStep s (str ("a=fingerprint:sha-256 ") ++ v) =
      .ok { s with d := { s.d with fingerprint := some (mapToUpper v) } } := by
  have hform : str ("a=fingerprint:sha-256 ") ++ v =
      str ("a=") ++ (str ("fingerprint") ++ ':' :: (str ("sha-256 ") ++ v)) := rfl
  have hv2 : trimEnd (str ("sha-256 ") ++ v) = str ("sha-256 ") ++ v := by
    rw [trimEnd_append_right _ _ (by rw [hv]; exact hne), hv]
  rw [hform, lineStep_attr_kv s _ _ hv2,
    attrStep_key_fingerprint s _ (attrKey_split _ _ (by decide)),
    attrValue_split _ _ (by decide), if_pos (matchPfx_refl_append _ _)]
  rw [(show (str ("sha-256 ") ++ v).drop 8 = v from rfl)]

/-- One parser iteration on an emitted `a=sctp-port:` line. -/
theorem lineStep_sctp_line (s : PState) (p : Nat) (hp : p < 65536) :
    lineStep s (str ("a=sctp-port:") ++ toDecimal p) =
      .ok { s with d := { s.d with sctpPort := some p } } := by
  have hform : str ("a=sctp-port:") ++ toDecimal p =
      str ("a=") ++ (str ("sctp-port") ++ ':' :: toDecimal p) := rfl
  rw [hform, lineStep_attr_kv s _ _ (trimEnd_toDecimal p),
    attrStep_key_sctp s _ (attrKey_split _ _ (by decide)),
    attrValue_split _ _ (by decide), stoul_toDecimal p (by omega)]
  show Except.ok { s with d := { s.d with sctpPort := some (p % 65536) } } = _
  rw [Nat.mod_eq_of_lt hp]

/-- One parser iteration on an emitted `a=max-message-size:` line. -/
theorem lineStep_mms_line (s : PState) (n : Nat) (hn : n < 18446744073709551616) :
    lineStep s (str ("a=max-message-size:") ++ toDecimal n) =
      .ok { s with d := { s.d with maxMessageSize := some n } } := by
  have hform : str ("a=max-message-size:") ++ toDecimal n =
      str ("a=") ++ (str ("max-message-size") ++ ':' :: toDecimal n) := rfl
  rw [hform, lineStep_attr_kv s _ _ (trimEnd_toDecimal n),
    attrStep_key_mms s _ (attrKey_split _ _ (by decide)),
    attrValue_split _ _ (by decide), stoul_toDecimal n hn]

/-- One parser iteration on a candidate line attaches the payload to the
pending section's mid (the data mid with no pending section). -/
theorem lineStep_cand_line (s : PState) (raw : Str) (hcl : trimEnd raw = raw)
    (hk : attrKey raw = str ("candidate")) :
    lineStep s (str ("a=") ++ raw) =
      .ok { s with d := s.d.addCandidate { raw := raw, mid :=
        match s.current with
        | some m => m.mid
        | none => s.d.dataMid } } := by
  rw [lineStep_attr s raw hcl, attrStep_key_candidate s raw hk]

/-- One parser iteration on the `a=end-of-candidates` line. -/
theorem lineStep_eoc_line (s : PState) :
    lineStep s (str ("a=end-of-candidates")) =
      .ok { s with d := { s.d with ended := true } } := by
  rw [(show str ("a=end-of-candidates") = str ("a=") ++ str ("end-of-candidates") from rfl),
    lineStep_attr s _ (by decide), attrStep_key_eoc s _ (by decide)]

/-- One parser iteration on the `c=` line is a no-op. -/
theorem lineStep_cline (s : PState) :
    lineStep s (str ("c=IN IP4 0.0.0.0")) = .ok s :=
  lineStep_ignored s _ 'c' (str ("=IN IP4 0.0.0.0")) (by decide) (by decide) (by decide)

/-- Reparsing the session-level lines of an emission from the initial state
restores the role, ICE credentials and fingerprint of the emitted
description, leaving no pending media section. -/
theorem session_lines_state (d : Description) (t2 : DType) (r2 : Role) (sid2 : Str)
    (hsane : SaneDescription d) :
    (sessionLinesOf d).foldl stepE (.ok (initPState t2 r2 sid2)) =
      .ok { d := sessDesc d t2 r2 sid2, current := none, mlineIndex := 0,
            warnings := [] } := by
  obtain ⟨hpw, hbd, hmed, hdm1, hdm2, huf, hpwd, hfp, hsp, hmms, hcand, hsid⟩ := id hsane
  have hmids := trimEnd_flatMap_mids (bundleMids d) (bundleMids_clean d hsane)
    (by unfold bundleMids; simp)
  have hA : List.foldl stepE (.ok (initPState t2 r2 sid2))
      [str ("v=0"),
       str ("o=- ") ++ d.sessionId ++ str (" 0 IN IP4 127.0.0.1"),
       str ("s=-"),
       str ("t=0 0"),
       str ("a=group:BUNDLE") ++ (bundleMids d).flatMap (fun m => ' ' :: m)] =
      .ok (initPState t2 r2 sid2) := by
    have ho : trimEnd (str ("o=- ") ++ d.sessionId ++ str (" 0 IN IP4 127.0.0.1")) =
        'o' :: (str ("=- ") ++ (d.sessionId ++ str (" 0 IN IP4 127.0.0.1"))) := by
      rw [← List.append_assoc,
        trimEnd_append_right _ _ (by decide),
        (show trimEnd (str (" 0 IN IP4 127.0.0.1")) = str (" 0 IN IP4 127.0.0.1") from
          by decide),
        List.append_assoc]
      rfl
    have hbun : lineStep (initPState t2 r2 sid2)
        (str ("a=group:BUNDLE") ++ (bundleMids d).flatMap (fun m => ' ' :: m)) =
        .ok (initPState t2 r2 sid2) := by
      rw [(show str ("a=group:BUNDLE") ++ (bundleMids d).flatMap (fun m => ' ' :: m) =
            str ("a=") ++ (str ("group") ++ ':' ::
              (str ("BUNDLE") ++ (bundleMids d).flatMap (fun m => ' ' :: m))) from rfl),
        lineStep_attr_kv _ _ _ (trimEnd_append_clean (by decide) hmids.1)]
      exact attrStep_unrecognized _ _ rfl
        (by rw [attrKey_split _ _ (by decide)]; decide)
    rw [List.foldl_cons, stepE_ok,
      lineStep_ignored _ (str ("v=0")) 'v' (str ("=0")) (by decide) (by decide) (by decide),
      List.foldl_cons, stepE_ok, lineStep_ignored _ _ 'o' _ ho (by decide) (by decide),
      List.foldl_cons, stepE_ok,
      lineStep_ignored _ (str ("s=-")) 's' (str ("=-")) (by decide) (by decide) (by decide),
      List.foldl_cons, stepE_ok,
      lineStep_ignored _ (str ("t=0 0")) 't' (str ("=0 0")) (by decide) (by decide)
        (by decide),
      List.foldl_cons, stepE_ok, hbun, List.foldl_nil]
  have hLS : ((if d.media.isEmpty then ([] : List Str) else
      [str ("a=group:LS") ++ d.media.flatMap (fun p => ' ' :: p.2.mid)])).foldl stepE
        (.ok (initPState t2 r2 sid2)) = .ok (initPState t2 r2 sid2) := by
    by_cases hme : d.media.isEmpty = true
    · rw [if_pos hme]
      rfl
    · rw [if_neg hme]
      have hmm2 : d.media.flatMap (fun p => ' ' :: p.2.mid) =
          (d.media.map (fun p => p.2.mid)).flatMap (fun m => ' ' :: m) := by
        rw [List.flatMap_map]
      have hmids2 := trimEnd_flatMap_mids (d.media.map (fun p => p.2.mid))
        (fun m hm => by
          rcases List.mem_map.mp hm with ⟨p, hp, he⟩
          obtain ⟨hne, hcl, _⟩ := hmed p hp
          rw [← he]
          exact ⟨hne, hcl.2⟩)
        (by
          intro hz
          simp only [List.map_eq_nil_iff] at hz
          rw [hz] at hme
          exact hme rfl)
      rw [List.foldl_cons, stepE_ok,
        (show str ("a=group:LS") ++ d.media.flatMap (fun p => ' ' :: p.2.mid) =
          str ("a=") ++ (str ("group") ++ ':' ::
            (str ("LS") ++ d.media.flatMap (fun p => ' ' :: p.2.mid))) from rfl),
        lineStep_attr_kv _ _ _
          (trimEnd_append_clean (by decide) (by rw [hmm2]; exact hmids2.1)),
        attrStep_unrecognized (initPState t2 r2 sid2) _ rfl
          (by rw [attrKey_split _ _ (by decide)]; decide),
        List.foldl_nil]
  have hB : List.foldl stepE (.ok (initPState t2 r2 sid2))
      [str ("a=msid-semantic:WMS *"),
       str ("a=setup:") ++ roleToString d.role,
       str ("a=ice-ufrag:") ++ d.iceUfrag,
       str ("a=ice-pwd:") ++ d.icePwd] =
      .ok { d := { sessDesc d t2 r2 sid2 with fingerprint := none }, current := none,
            mlineIndex := 0, warnings := [] } := by
    rw [List.foldl_cons, stepE_ok,
      lineStep_unrecognized (initPState t2 r2 sid2) (str ("a=msid-semantic:WMS *")) rfl
        (by decide) (by decide),
      List.foldl_cons, stepE_ok, lineStep_setup_line _ d.role,
      List.foldl_cons, stepE_ok, lineStep_ufrag_line _ _ huf.2,
      List.foldl_cons, stepE_ok, lineStep_pwd_line _ _ hpwd.2,
      List.foldl_nil, initPState_d]
    rfl
  unfold sessionLinesOf
  rw [List.foldl_append, List.foldl_append, List.foldl_append, List.foldl_append,
    hA, hLS, hB]
  have hT : ((if d.ended then ([] : List Str) else [str ("a=ice-options:trickle")])).foldl
      stepE (.ok ({ d := { sessDesc d t2 r2 sid2 with fingerprint := none }, current := none,
                    mlineIndex := 0, warnings := [] } : PState)) =
      .ok ({ d := { sessDesc d t2 r2 sid2 with fingerprint := none }, current := none,
             mlineIndex := 0, warnings := [] } : PState) := by
    by_cases he : d.ended = true
    · rw [if_pos he]
      rfl
    · rw [if_neg he, List.foldl_cons, stepE_ok,
        lineStep_unrecognized ({ d := { sessDesc d t2 r2 sid2 with fingerprint := none },
                                 current := none, mlineIndex := 0,
                                 warnings := [] } : PState)
          (str ("a=ice-options:trickle")) rfl (by decide) (by decide), List.foldl_nil]
  rw [hT]
  rcases hfpe : d.fingerprint with _ | fp
  · show (Except.ok { d := { sessDesc d t2 r2 sid2 with fingerprint := none }, current := none,
                      mlineIndex := 0, warnings := [] } : Except SdpError PState) = _
    rw [← hfpe]
    rfl
  · obtain ⟨hne, hcl, hup⟩ := hfp fp (by rw [hfpe]; exact List.mem_cons_self _ _)
    show List.foldl stepE
        (Except.ok { d := { sessDesc d t2 r2 sid2 with fingerprint := none }, current := none,
                     mlineIndex := 0, warnings := [] })
        [str ("a=fingerprint:sha-256 ") ++ fp] = _
    rw [List.foldl_cons, stepE_ok, lineStep_fpr_line _ fp hcl.2 hne, hup, List.foldl_nil,
      ← hfpe]
    rfl

/-- Dropping past an appended prefix. -/
theorem drop_append_plus (x y : Str) (n : Nat) :
    (x ++ y).drop (x.length + n) = y.drop n := by
  induction x with
  | nil => simp
  | cons c t ih =>
    rw [List.cons_append, List.length_cons,
      (show t.length + 1 + n = (t.length + n) + 1 from by omega), List.drop_succ_cons]
    exact ih

/-- Finding a character right after a prefix free of it. -/
theorem findIdx_append_cons (x : Str) (c : Char) (y : Str) (hx : c ∉ x) :
    findIdx c (x ++ c :: y) = some x.length := by
  induction x with
  | nil =>
    show findIdx c (c :: y) = some 0
    unfold findIdx
    rw [if_pos rfl]
  | cons a t ih =>
    have ha : ¬(a = c) := fun he => hx (by rw [he]; exact List.mem_cons_self _ _)
    rw [List.cons_append]
    unfold findIdx
    rw [if_neg ha, ih (fun hm => hx (List.mem_cons_of_mem _ hm))]
    rfl

/-- The m-line constructor of `Media` on a type followed by a space: the text
before the space is the type, the text after the next space the
description. -/
theorem ofMline_split (ty z : Str) (hty : ' ' ∉ ty) :
    Media.ofMline (ty ++ ' ' :: z) =
      { type := ty,
        description :=
          match findIdx ' ' z with
          | none => []
          | some q0 => z.drop (q0 + 1),
        mid := [], attributes := [] } := by
  unfold Media.ofMline
  rw [findIdx_append_cons ty ' ' z hty]
  have hdrop : (ty ++ ' ' :: z).drop (ty.length + 1) = z := by
    rw [(show ty ++ ' ' :: z = (ty ++ [' ']) ++ z from by simp),
      (show ty.length + 1 = (ty ++ [' ']).length + 0 from by
        rw [List.length_append]
        rfl),
      drop_append_plus, List.drop_zero]
  show ({ type := (ty ++ ' ' :: z).take ty.length,
          description :=
            match findIdx ' ' ((ty ++ ' ' :: z).drop (ty.length + 1)) with
            | none => []
            | some q0 => (ty ++ ' ' :: z).drop (ty.length + 1 + q0 + 1),
          mid := [], attributes := [] } : Media) = _
  rw [List.take_left, hdrop]
  cases hq : findIdx ' ' z with
  | none => rfl
  | some q0 =>
    show ({ type := ty, description := (ty ++ ' ' :: z).drop (ty.length + 1 + q0 + 1),
            mid := [], attributes := [] } : Media) =
      ({ type := ty, description := z.drop (q0 + 1), mid := [], attributes := [] } : Media)
    have h2 : ty.length + 1 + q0 + 1 = (ty ++ [' ']).length + (q0 + 1) := by
      rw [List.length_append, (show ([' '] : Str).length = 1 from rfl)]
      omega
    rw [(show ty ++ ' ' :: z = (ty ++ [' ']) ++ z from by simp), h2, drop_append_plus]

/-- One parser iteration on an emitted media m-line: close the pending
section, then open a fresh one with the media's type and description. -/
theorem lineStep_mline_media (s : PState) (ty desc : Str) (hty : ' ' ∉ ty)
    (hdesc : trimEnd desc = desc) :
    ∃ tl, lineStep s (str ("m=") ++ ty ++ [' '] ++ str ("0 ") ++ desc) =
      .ok { flushCurrent s tl with
            current := some { type := ty, description := desc, mid := [],
                              attributes := [] } } := by
  by_cases hde : desc = []
  · subst hde
    refine ⟨str ("m=") ++ ty ++ [' '] ++ (['0'] : Str), ?_⟩
    have htl : trimEnd (str ("m=") ++ ty ++ [' '] ++ str ("0 ") ++ []) =
        str ("m=") ++ ty ++ [' '] ++ ['0'] := by
      rw [List.append_nil, trimEnd_append_right _ _ (by decide),
        (show trimEnd (str ("0 ")) = ['0'] from by decide)]
    have hLe : str ("m=") ++ ty ++ [' '] ++ (['0'] : Str) =
        str ("m=") ++ (ty ++ ' ' :: ['0']) := by
      simp
    rw [lineStep_mline s _ (by rw [htl, hLe]; exact matchPfx_refl_append _ _), htl, hLe,
      drop_two_me, ofMline_split ty ['0'] hty]
    rfl
  · refine ⟨str ("m=") ++ ty ++ [' '] ++ str ("0 ") ++ desc, ?_⟩
    have htl : trimEnd (str ("m=") ++ ty ++ [' '] ++ str ("0 ") ++ desc) =
        str ("m=") ++ ty ++ [' '] ++ str ("0 ") ++ desc := by
      rw [trimEnd_append_right _ _ (by rw [hdesc]; exact hde), hdesc]
    have hLe : str ("m=") ++ ty ++ [' '] ++ str ("0 ") ++ desc =
        str ("m=") ++ (ty ++ ' ' :: (str ("0 ") ++ desc)) := by
      simp
    have hfi : findIdx ' ' (str ("0 ") ++ desc) = some 1 := by
      show findIdx ' ' ('0' :: ' ' :: desc) = some 1
      unfold findIdx
      rw [if_neg (by decide)]
      unfold findIdx
      rw [if_pos rfl]
      rfl
    rw [lineStep_mline s _ (by rw [htl, hLe]; exact matchPfx_refl_append _ _), htl, hLe,
      drop_two_me, ofMline_split ty (str ("0 ") ++ desc) hty, hfi]
    rfl

/-- One parser iteration on the data m-line of a media-free emission. -/
theorem lineStep_mline_app9 (s : PState) :
    lineStep s (str ("m=application 9 UDP/DTLS/SCTP webrtc-datachannel")) =
      .ok { flushCurrent s (str ("m=application 9 UDP/DTLS/SCTP webrtc-datachannel")) with
            current := some { type := str ("application"),
                              description := str ("UDP/DTLS/SCTP webrtc-datachannel"),
                              mid := [], attributes := [] } } := by
  rw [lineStep_mline s _ (by decide),
    (show trimEnd (str ("m=application 9 UDP/DTLS/SCTP webrtc-datachannel")) =
      str ("m=application 9 UDP/DTLS/SCTP webrtc-datachannel") from by decide),
    (show Media.ofMline ((str ("m=application 9 UDP/DTLS/SCTP webrtc-datachannel")).drop 2) =
      { type := str ("application"), description := str ("UDP/DTLS/SCTP webrtc-datachannel"),
        mid := [], attributes := [] } from by decide)]

/-- One parser iteration on the data m-line of an emission with media. -/
theorem lineStep_mline_app0 (s : PState) :
    lineStep s (str ("m=application 0 UDP/DTLS/SCTP webrtc-datachannel")) =
      .ok { flushCurrent s (str ("m=application 0 UDP/DTLS/SCTP webrtc-datachannel")) with
            current := some { type := str ("application"),
                              description := str ("UDP/DTLS/SCTP webrtc-datachannel"),
                              mid := [], attributes := [] } } := by
  rw [lineStep_mline s _ (by decide),
    (show trimEnd (str ("m=application 0 UDP/DTLS/SCTP webrtc-datachannel")) =
      str ("m=application 0 UDP/DTLS/SCTP webrtc-datachannel") from by decide),
    (show Media.ofMline ((str ("m=application 0 UDP/DTLS/SCTP webrtc-datachannel")).drop 2) =
      { type := str ("application"), description := str ("UDP/DTLS/SCTP webrtc-datachannel"),
        mid := [], attributes := [] } from by decide)]

/-- The fresh pending section opened by the m-line of the emitted section at
index `j`. -/
def sectionStart (d : Description) (j : Nat) : Media :=
  match mapFind j d.media with
  | some m => { type := m.type, description := m.description, mid := [], attributes := [] }
  | none =>
    { type := str ("application"), description := str ("UDP/DTLS/SCTP webrtc-datachannel"),
      mid := [], attributes := [] }

/-- The reparse state right after the m-line of the emitted section at index
`j`. -/
def midChunk (d : Description) (t2 : DType) (r2 : Role) (sid2 : Str) (j : Nat) : PState :=
  { d := { sessDesc d t2 r2 sid2 with
      media := reconUpTo d j,
      dataMid := if dataSeen d j then d.dataMid else str ("data"),
      sctpPort := if dataSeen d j then d.sctpPort else none,
      maxMessageSize := if dataSeen d j then d.maxMessageSize else none },
    current := some (sectionStart d j), mlineIndex := j, warnings := [] }

/-- Reconstruction is unchanged past a media index. -/
theorem reconUpTo_succ_some (d : Description) (k : Nat) (m : Media)
    (hm : mapFind k d.media = some m) :
    reconUpTo d (k + 1) = reconUpTo d k ++ [(k, reconMedia m)] := by
  rw [reconUpTo_succ, hm]

/-- Reconstruction is unchanged past the data index. -/
theorem reconUpTo_succ_none (d : Description) (k : Nat) (hm : mapFind k d.media = none) :
    reconUpTo d (k + 1) = reconUpTo d k := by
  rw [reconUpTo_succ, hm]
  simp

/-- The data-section search is unchanged past a media index. -/
theorem dataSeen_succ_some (d : Description) (k : Nat) (m : Media)
    (hm : mapFind k d.media = some m) : dataSeen d (k + 1) = dataSeen d k := by
  rw [dataSeen_succ, hm]
  simp

/-- The data-section search succeeds past the data index. -/
theorem dataSeen_succ_none (d : Description) (k : Nat) (hm : mapFind k d.media = none) :
    dataSeen d (k + 1) = true := by
  rw [dataSeen_succ, hm]
  simp

/-- Closing the pending section of a chunk state yields the next mid-chunk
description. -/
theorem chunk_flush (d : Description) (t2 : DType) (r2 : Role) (sid2 : Str)
    (hsane : SaneDescription d) (j : Nat) (tl : Str) (cur2 : Option Media) :
    { flushCurrent (chunkState d t2 r2 sid2 j) tl with current := cur2 } =
      ({ d := (midChunk d t2 r2 sid2 j).d, current := cur2, mlineIndex := j,
         warnings := [] } : PState) := by
  obtain ⟨hpw, hbd, hmed, hdm1, hdm2, huf, hpwd, hfp, hsp, hmms, hcand, hsid⟩ := id hsane
  cases j with
  | zero =>
    rw [flushCurrent_none _ _ rfl]
    rfl
  | succ k =>
    rcases hmk : mapFind k d.media with _ | m
    · have hpa : pendingAt d k =
          { type := str ("application"),
            description := str ("UDP/DTLS/SCTP webrtc-datachannel"), mid := d.dataMid,
            attributes := (if d.media.isEmpty then [] else [str ("bundle-only")]) ++
              [str ("sendrecv")] } := by
        unfold pendingAt
        rw [hmk]
      rw [flushCurrent_mid_ne _ tl (pendingAt d k) rfl (by rw [hpa]; exact hdm1), hpa]
      simp [chunkState, midChunk, chunkDesc, sessDesc, reconUpTo_succ_none d k hmk,
        dataSeen_succ_none d k hmk]
    · obtain ⟨hmidne, hmidcl, htyne, htynl, htysp, hdcl, hattrs⟩ :=
        hmed (k, m) (mapFind_mem hmk)
      have hpa : pendingAt d k = reconMedia m := by
        unfold pendingAt
        rw [hmk]
      rw [flushCurrent_mid_ne _ tl (pendingAt d k) rfl (by rw [hpa]; exact hmidne), hpa]
      simp [chunkState, midChunk, chunkDesc, sessDesc, reconMedia, htyne,
        reconUpTo_succ_some d k m hmk, dataSeen_succ_some d k m hmk]
      exact mapEmplace_append _ _ _ (reconUpTo_keys_lt d k)

/-- Folding the emitted attribute lines of a media section appends them to
the pending section. -/
theorem foldl_attr_lines (attrs : List Str) (s : PState) (m : Media)
    (hc : s.current = some m)
    (hattrs : ∀ a ∈ attrs, cleanStr a ∧ attrKey a ∉ recognizedKeys) :
    (attrs.map (fun a => str ("a=") ++ a)).foldl stepE (.ok s) =
      .ok { s with current := some { m with attributes := m.attributes ++ attrs } } := by
  induction attrs generalizing s m with
  | nil =>
    obtain ⟨d0, c0, i0, w0⟩ := s
    simp only [] at hc
    subst hc
    rw [List.map_nil, List.foldl_nil, List.append_nil]
  | cons a rest ih =>
    obtain ⟨hacl, hak⟩ := hattrs a (List.mem_cons_self _ _)
    rw [List.map_cons, List.foldl_cons, stepE_ok, lineStep_attr s a hacl.2,
      attrStep_attr_append s a m hc hak,
      ih { s with current := some { m with attributes := m.attributes ++ [a] } }
        { m with attributes := m.attributes ++ [a] } rfl
        (fun q hq => hattrs q (List.mem_cons_of_mem _ hq))]
    show Except.ok
        { s with current := some { m with attributes := (m.attributes ++ [a]) ++ rest } } = _
    rw [List.append_assoc]
    rfl

/-- A pending application section with the given mid and attributes. -/
def appPend (mid : Str) (attrs : List Str) : Media :=
  { type := str ("application"), description := str ("UDP/DTLS/SCTP webrtc-datachannel"),
    mid := mid, attributes := attrs }

/-- A reparse state inside the emitted section at index `j`, with the given
pending section. -/
def chunkMidState (d : Description) (t2 : DType) (r2 : Role) (sid2 : Str) (j : Nat)
    (cur : Media) : PState :=
  { d := (midChunk d t2 r2 sid2 j).d, current := some cur, mlineIndex := j,
    warnings := [] }

/-- The description of the chunk state past the data section, with the data
fields and the partial media reconstruction in place. -/
def dataDoneDesc (d : Description) (t2 : DType) (r2 : Role) (sid2 : Str) (j : Nat) :
    Description :=
  { sessDesc d t2 r2 sid2 with
    media := reconUpTo d j,
    dataMid := if dataSeen d j then d.dataMid else str ("data"),
    sctpPort := d.sctpPort,
    maxMessageSize := d.maxMessageSize }

/-- Unfolding of the chunk state at a successor index. -/
theorem chunkState_succ (d : Description) (t2 : DType) (r2 : Role) (sid2 : Str) (k : Nat) :
    chunkState d t2 r2 sid2 (k + 1) =
      { d := chunkDesc d t2 r2 sid2 (k + 1), current := some (pendingAt d k),
        mlineIndex := k, warnings := [] } := rfl

/-- A pending media section rebuilt from an emitted one, with the given mid
and attributes. -/
def mediaPend (m : Media) (mid : Str) (attrs : List Str) : Media :=
  { type := m.type, description := m.description, mid := mid, attributes := attrs }

/-- Reparsing one emitted section advances the chunk state by one index. -/
theorem chunk_step (d : Description) (t2 : DType) (r2 : Role) (sid2 : Str)
    (hsane : SaneDescription d) (j : Nat) :
    (sectionLines d j).foldl stepE (.ok (chunkState d t2 r2 sid2 j)) =
      .ok (chunkState d t2 r2 sid2 (j + 1)) := by
  obtain ⟨hpw, hbd, hmed, hdm1, hdm2, huf, hpwd, hfp, hsp, hmms, hcand, hsid⟩ := id hsane
  rcases hmj : mapFind j d.media with _ | mj
  · have htgt : chunkState d t2 r2 sid2 (j + 1) =
        { d := dataDoneDesc d t2 r2 sid2 j,
          current := some (appPend d.dataMid
            ((if d.media.isEmpty then ([] : List Str) else [str ("bundle-only")]) ++
              [str ("sendrecv")])),
          mlineIndex := j, warnings := [] } := by
      rw [chunkState_succ]
      unfold chunkDesc pendingAt dataDoneDesc appPend
      rw [hmj]
      simp [dataSeen_succ_none d j hmj]
    unfold sectionLines
    rw [hmj, htgt]
    show (([str ("m=application ") ++ (if d.media.isEmpty then str ("9") else str ("0")) ++
            [' '] ++ str ("UDP/DTLS/SCTP webrtc-datachannel"),
           str ("c=IN IP4 0.0.0.0")]
          ++ (if d.media.isEmpty then [] else [str ("a=bundle-only")])
          ++ [str ("a=mid:") ++ d.dataMid, str ("a=sendrecv")]
          ++ (match d.sctpPort with
              | some p => [str ("a=sctp-port:") ++ toDecimal p]
              | none => ([] : List Str))
          ++ (match d.maxMessageSize with
              | some n => [str ("a=max-message-size:") ++ toDecimal n]
              | none => ([] : List Str))).foldl stepE
          (.ok (chunkState d t2 r2 sid2 j))) = _
    rw [List.foldl_append, List.foldl_append, List.foldl_append, List.foldl_append]
    have hhead : List.foldl stepE (.ok (chunkState d t2 r2 sid2 j))
        [str ("m=application ") ++ (if d.media.isEmpty then str ("9") else str ("0")) ++
           [' '] ++ str ("UDP/DTLS/SCTP webrtc-datachannel"),
         str ("c=IN IP4 0.0.0.0")] =
        .ok (chunkMidState d t2 r2 sid2 j (appPend [] [])) := by
      by_cases hie : d.media.isEmpty = true
      · rw [if_pos hie,
          (show str ("m=application ") ++ str ("9") ++ [' '] ++
              str ("UDP/DTLS/SCTP webrtc-datachannel") =
            str ("m=application 9 UDP/DTLS/SCTP webrtc-datachannel") from by decide),
          List.foldl_cons, stepE_ok, lineStep_mline_app9,
          chunk_flush d t2 r2 sid2 hsane j _ _,
          List.foldl_cons, stepE_ok, lineStep_cline, List.foldl_nil]
        rfl
      · rw [if_neg hie,
          (show str ("m=application ") ++ str ("0") ++ [' '] ++
              str ("UDP/DTLS/SCTP webrtc-datachannel") =
            str ("m=application 0 UDP/DTLS/SCTP webrtc-datachannel") from by decide),
          List.foldl_cons, stepE_ok, lineStep_mline_app0,
          chunk_flush d t2 r2 sid2 hsane j _ _,
          List.foldl_cons, stepE_ok, lineStep_cline, List.foldl_nil]
        rfl
    rw [hhead]
    have hbseg : ((if d.media.isEmpty then ([] : List Str) else
        [str ("a=bundle-only")])).foldl stepE
          (.ok (chunkMidState d t2 r2 sid2 j (appPend [] []))) =
        .ok (chunkMidState d t2 r2 sid2 j (appPend []
          (if d.media.isEmpty then ([] : List Str) else [str ("bundle-only")]))) := by
      by_cases hie : d.media.isEmpty = true
      · rw [if_pos hie, if_pos hie, List.foldl_nil]
      · rw [if_neg hie, if_neg hie, List.foldl_cons, stepE_ok,
          (show str ("a=bundle-only") = str ("a=") ++ str ("bundle-only") from rfl),
          lineStep_attr _ _ (by decide),
          attrStep_attr_append _ _ (appPend [] []) rfl (by decide), List.foldl_nil]
        rfl
    rw [hbseg]
    rw [List.foldl_cons, stepE_ok, lineStep_mid_line _ d.dataMid hdm2.2]
    show List.foldl stepE
        (List.foldl stepE
          (List.foldl stepE
            (.ok (chunkMidState d t2 r2 sid2 j (appPend d.dataMid
              (if d.media.isEmpty then ([] : List Str) else [str ("bundle-only")]))))
            [str ("a=sendrecv")])
          (match d.sctpPort with
           | some p => [str ("a=sctp-port:") ++ toDecimal p]
           | none => ([] : List Str)))
        (match d.maxMessageSize with
         | some n => [str ("a=max-message-size:") ++ toDecimal n]
         | none => ([] : List Str)) = _
    rw [List.foldl_cons, stepE_ok,
      (show str ("a=sendrecv") = str ("a=") ++ str ("sendrecv") from rfl),
      lineStep_attr _ _ (by decide),
      attrStep_attr_append _ _ (appPend d.dataMid
        (if d.media.isEmpty then ([] : List Str) else [str ("bundle-only")])) rfl
        (by decide),
      List.foldl_nil]
    rcases hscp : d.sctpPort with _ | p <;> rcases hmmsv : d.maxMessageSize with _ | n
    · show Except.ok (chunkMidState d t2 r2 sid2 j (appPend d.dataMid
          ((if d.media.isEmpty then ([] : List Str) else [str ("bundle-only")]) ++
            [str ("sendrecv")]))) = _
      simp [chunkMidState, midChunk, dataDoneDesc, sessDesc, appPend, hscp, hmmsv]
    · show List.foldl stepE
          (Except.ok (chunkMidState d t2 r2 sid2 j (appPend d.dataMid
            ((if d.media.isEmpty then ([] : List Str) else [str ("bundle-only")]) ++
              [str ("sendrecv")]))))
          [str ("a=max-message-size:") ++ toDecimal n] = _
      rw [List.foldl_cons, stepE_ok,
        lineStep_mms_line _ n (hmms n (by rw [hmmsv]; exact List.mem_cons_self _ _)),
        List.foldl_nil]
      simp [chunkMidState, midChunk, dataDoneDesc, sessDesc, appPend, hscp, hmmsv]
    · show List.foldl stepE
          (Except.ok (chunkMidState d t2 r2 sid2 j (appPend d.dataMid
            ((if d.media.isEmpty then ([] : List Str) else [str ("bundle-only")]) ++
              [str ("sendrecv")]))))
          [str ("a=sctp-port:") ++ toDecimal p] = _
      rw [List.foldl_cons, stepE_ok,
        lineStep_sctp_line _ p (hsp p (by rw [hscp]; exact List.mem_cons_self _ _)),
        List.foldl_nil]
      simp [chunkMidState, midChunk, dataDoneDesc, sessDesc, appPend, hscp, hmmsv]
    · show List.foldl stepE
          (Except.ok (chunkMidState d t2 r2 sid2 j (appPend d.dataMid
            ((if d.media.isEmpty then ([] : List Str) else [str ("bundle-only")]) ++
              [str ("sendrecv")]))))
          [str ("a=sctp-port:") ++ toDecimal p,
           str ("a=max-message-size:") ++ toDecimal n] = _
      rw [List.foldl_cons, stepE_ok,
        lineStep_sctp_line _ p (hsp p (by rw [hscp]; exact List.mem_cons_self _ _)),
        List.foldl_cons, stepE_ok,
        lineStep_mms_line _ n (hmms n (by rw [hmmsv]; exact List.mem_cons_self _ _)),
        List.foldl_nil]
      simp [chunkMidState, midChunk, dataDoneDesc, sessDesc, appPend, hscp, hmmsv]
  · obtain ⟨hmidne, hmidcl, htyne, htynl, htysp, hdcl, hattrsane⟩ :=
      hmed (j, mj) (mapFind_mem hmj)
    have htgt : chunkState d t2 r2 sid2 (j + 1) =
        { d := (midChunk d t2 r2 sid2 j).d, current := some (reconMedia mj),
          mlineIndex := j, warnings := [] } := by
      rw [chunkState_succ]
      unfold chunkDesc pendingAt midChunk
      rw [hmj]
      simp [dataSeen_succ_some d j mj hmj]
    unfold sectionLines
    rw [hmj, htgt]
    show (([str ("m=") ++ mj.type ++ [' '] ++ str ("0 ") ++ mj.description,
           str ("c=IN IP4 0.0.0.0"),
           str ("a=bundle-only"),
           str ("a=mid:") ++ mj.mid]
          ++ mj.attributes.map (fun a => str ("a=") ++ a)).foldl stepE
          (.ok (chunkState d t2 r2 sid2 j))) = _
    rw [List.foldl_append]
    obtain ⟨tl, hml⟩ := lineStep_mline_media (chunkState d t2 r2 sid2 j) mj.type
      mj.description htysp hdcl.2
    rw [List.foldl_cons, stepE_ok, hml, chunk_flush d t2 r2 sid2 hsane j tl _,
      List.foldl_cons, stepE_ok, lineStep_cline,
      List.foldl_cons, stepE_ok,
      (show str ("a=bundle-only") = str ("a=") ++ str ("bundle-only") from rfl),
      lineStep_attr _ _ (by decide),
      attrStep_attr_append _ _ (mediaPend mj [] ([] : List Str)) rfl (by decide),
      List.foldl_cons, stepE_ok, lineStep_mid_line _ mj.mid hmidcl.2]
    show (mj.attributes.map (fun a => str ("a=") ++ a)).foldl stepE
        (.ok (chunkMidState d t2 r2 sid2 j
          (mediaPend mj mj.mid (([] : List Str) ++ [str ("bundle-only")])))) = _
    rw [foldl_attr_lines mj.attributes _
      (mediaPend mj mj.mid (([] : List Str) ++ [str ("bundle-only")])) rfl hattrsane]
    show Except.ok (chunkMidState d t2 r2 sid2 j
        (mediaPend mj mj.mid ((([] : List Str) ++ [str ("bundle-only")]) ++
          mj.attributes))) = _
    rfl

/-- Folding the parser over chunked line groups indexed by a range. -/
theorem foldl_flatMap_chunks (g : Nat → List Str) (St : Nat → PState) (n : Nat)
    (hstep : ∀ j, j < n → (g j).foldl stepE (.ok (St j)) = .ok (St (j + 1))) :
    ((List.range n).flatMap g).foldl stepE (.ok (St 0)) = .ok (St n) := by
  induction n with
  | zero => rfl
  | succ n ih =>
    rw [List.range_succ, List.flatMap_append, List.foldl_append,
      ih (fun j hj => hstep j (Nat.lt_succ_of_lt hj)),
      (show ([n].flatMap g) = g n from by simp)]
    exact hstep n (Nat.lt_succ_self n)

/-- Reparsing all emitted sections from the post-session state reaches the
final chunk state. -/
theorem media_chunks (d : Description) (t2 : DType) (r2 : Role) (sid2 : Str)
    (hsane : SaneDescription d) :
    (mediaLinesOf d).foldl stepE (.ok (chunkState d t2 r2 sid2 0)) =
      .ok (chunkState d t2 r2 sid2 (d.media.length + 1)) := by
  unfold mediaLinesOf
  exact foldl_flatMap_chunks (sectionLines d) (chunkState d t2 r2 sid2) _
    (fun j _ => chunk_step d t2 r2 sid2 hsane j)

/-- Reparsing the emitted candidate lines attaches every candidate payload to
the mid of the pending (last) section. -/
theorem foldl_cand_lines (cands : List Candidate) (s : PState) (pm : Media)
    (hc : s.current = some pm)
    (hcl : ∀ c ∈ cands, cleanStr c.raw ∧ attrKey c.raw = str ("candidate")) :
    (cands.map candidateToString).foldl stepE (.ok s) =
      .ok { s with d := { s.d with candidates :=
        s.d.candidates ++ cands.map (fun c => { raw := c.raw, mid := pm.mid }) } } := by
  induction cands generalizing s with
  | nil =>
    rw [List.map_nil, List.foldl_nil, List.map_nil, List.append_nil]
  | cons c rest ih =>
    obtain ⟨hccl, hck⟩ := hcl c (List.mem_cons_self _ _)
    obtain ⟨d0, c0, i0, w0⟩ := s
    simp only [] at hc
    subst hc
    rw [List.map_cons, List.foldl_cons, stepE_ok,
      (show candidateToString c = str ("a=") ++ c.raw from rfl),
      lineStep_cand_line _ c.raw hccl.2 hck]
    show (rest.map candidateToString).foldl stepE
        (.ok { d := d0.addCandidate { raw := c.raw, mid := pm.mid }, current := some pm,
               mlineIndex := i0, warnings := w0 }) = _
    rw [ih { d := d0.addCandidate { raw := c.raw, mid := pm.mid }, current := some pm,
             mlineIndex := i0, warnings := w0 } rfl
        (fun q hq => hcl q (List.mem_cons_of_mem _ hq))]
    show Except.ok
        ({ d :=
             { d0 with
               candidates :=
                 (d0.candidates ++ [{ raw := c.raw, mid := pm.mid }]) ++
                   rest.map (fun c => ({ raw := c.raw, mid := pm.mid } : Candidate)) },
           current := some pm, mlineIndex := i0, warnings := w0 } : PState) = _
    rw [List.append_assoc]
    rfl

/-- Reparsing the optional end-of-candidates line restores the ended flag. -/
theorem foldl_end_lines (d : Description) (s : PState) (hse : s.d.ended = false) :
    (endLinesOf d).foldl stepE (.ok s) =
      .ok { s with d := { s.d with ended := d.ended } } := by
  unfold endLinesOf
  by_cases he : d.ended = true
  · rw [if_pos he, List.foldl_cons, stepE_ok, lineStep_eoc_line, List.foldl_nil, he]
  · have he2 : d.ended = false := by
      cases hx : d.ended
      · rfl
      · exact absurd hx he
    rw [if_neg he, List.foldl_nil, he2, ← hse]

/-- The mid of the last pending section is the last-section mid. -/
theorem pendingAt_mid_last (d : Description) :
    (pendingAt d d.media.length).mid = lastSectionMid d := by
  unfold pendingAt lastSectionMid
  rcases hm : mapFind d.media.length d.media with _ | m <;> rfl

/-- Membership in an append preserves newline-freedom. -/
theorem no_nl_append {a b : Str} (ha : '\n' ∉ a) (hb : '\n' ∉ b) : '\n' ∉ a ++ b := by
  intro h
  rcases List.mem_append.mp h with h1 | h2
  · exact ha h1
  · exact hb h2

/-- A space-glued mid enumeration of newline-free mids is newline-free. -/
theorem not_nl_flatMap_mids (mids : List Str) (h : ∀ m ∈ mids, '\n' ∉ m) :
    '\n' ∉ mids.flatMap (fun m => ' ' :: m) := by
  intro hm
  rcases List.mem_flatMap.mp hm with ⟨m, hmm, hin⟩
  rcases List.mem_cons.mp hin with he | hin2
  · exact absurd he (by decide)
  · exact h m hmm hin2

/-- Bundle mids of a sane description are newline-free. -/
theorem bundleMids_no_nl (d : Description) (hsane : SaneDescription d) :
    ∀ m ∈ bundleMids d, '\n' ∉ m := by
  obtain ⟨_, _, hmed, _, hdm2, _⟩ := hsane
  intro m hm
  rcases List.mem_map.mp hm with ⟨i, _, hfi⟩
  rcases hfind : mapFind i d.media with _ | mi
  · rw [hfind] at hfi
    simp only [] at hfi
    rw [← hfi]
    exact hdm2.1
  · rw [hfind] at hfi
    simp only [] at hfi
    obtain ⟨_, hclean, _⟩ := hmed (i, mi) (mapFind_mem hfind)
    rw [← hfi]
    exact hclean.1

/-- The emitted role string is newline-free. -/
theorem roleToString_no_nl (r : Role) : '\n' ∉ roleToString r := by
  cases r <;> decide

/-- No session-level emitted line contains a newline. -/
theorem sessionLines_no_nl (d : Description) (hsane : SaneDescription d) :
    ∀ l ∈ sessionLinesOf d, '\n' ∉ l := by
  obtain ⟨hpw, hbd, hmed, hdm1, hdm2, huf, hpwd, hfp, hsp, hmms, hcand, hsid⟩ := id hsane
  intro l hl
  unfold sessionLinesOf at hl
  rcases List.mem_append.mp hl with hl1 | hlf
  case inr =>
    rcases hfpe : d.fingerprint with _ | fp <;> rw [hfpe] at hlf
    · exact absurd hlf (by simp)
    · obtain ⟨hne, hcl, hup⟩ := hfp fp (by rw [hfpe]; exact List.mem_cons_self _ _)
      rcases List.mem_singleton.mp hlf with rfl
      exact no_nl_append (by decide) hcl.1
  rcases List.mem_append.mp hl1 with hl2 | hlt
  case inr =>
    by_cases hend : d.ended = true <;> [rw [if_pos hend] at hlt; rw [if_neg hend] at hlt]
    · exact absurd hlt (by simp)
    · rcases List.mem_singleton.mp hlt with rfl
      decide
  rcases List.mem_append.mp hl2 with hl3 | hlm
  case inr =>
    simp only [List.mem_cons, List.not_mem_nil, or_false] at hlm
    rcases hlm with rfl | rfl | rfl | rfl
    · decide
    · exact no_nl_append (by decide) (roleToString_no_nl d.role)
    · exact no_nl_append (by decide) huf.1
    · exact no_nl_append (by decide) hpwd.1
  rcases List.mem_append.mp hl3 with hl4 | hls
  case inr =>
    by_cases hme : d.media.isEmpty = true <;> [rw [if_pos hme] at hls; rw [if_neg hme] at hls]
    · exact absurd hls (by simp)
    · rcases List.mem_singleton.mp hls with rfl
      refine no_nl_append (by decide) ?_
      intro hmem
      rcases List.mem_flatMap.mp hmem with ⟨p, hp, hin⟩
      rcases List.mem_cons.mp hin with he | hin2
      · exact absurd he (by decide)
      · obtain ⟨_, hclean, _⟩ := hmed p hp
        exact hclean.1 hin2
  simp only [List.mem_cons, List.not_mem_nil, or_false] at hl4
  rcases hl4 with rfl | rfl | rfl | rfl | rfl
  · decide
  · exact no_nl_append (no_nl_append (by decide) hsid) (by decide)
  · decide
  · decide
  · exact no_nl_append (by decide)
      (not_nl_flatMap_mids (bundleMids d) (bundleMids_no_nl d hsane))

/-- No emitted section line contains a newline. -/
theorem mediaLines_no_nl (d : Description) (hsane : SaneDescription d) :
    ∀ l ∈ mediaLinesOf d, '\n' ∉ l := by
  obtain ⟨hpw, hbd, hmed, hdm1, hdm2, huf, hpwd, hfp, hsp, hmms, hcand, hsid⟩ := id hsane
  intro l hl
  unfold mediaLinesOf at hl
  rcases List.mem_flatMap.mp hl with ⟨i, _, hli⟩
  unfold sectionLines at hli
  rcases hmi : mapFind i d.media with _ | m <;> rw [hmi] at hli
  · rcases List.mem_append.mp hli with hl1 | hl2
    case inr =>
      rcases hmmv : d.maxMessageSize with _ | n <;> rw [hmmv] at hl2
      · exact absurd hl2 (by simp)
      · rcases List.mem_singleton.mp hl2 with rfl
        exact no_nl_append (by decide) (toDecimal_no_nl n)
    rcases List.mem_append.mp hl1 with hl3 | hl4
    case inr =>
      rcases hscv : d.sctpPort with _ | p <;> rw [hscv] at hl4
      · exact absurd hl4 (by simp)
      · rcases List.mem_singleton.mp hl4 with rfl
        exact no_nl_append (by decide) (toDecimal_no_nl p)
    rcases List.mem_append.mp hl3 with hl5 | hl6
    case inr =>
      simp only [List.mem_cons, List.not_mem_nil, or_false] at hl6
      rcases hl6 with rfl | rfl
      · exact no_nl_append (by decide) hdm2.1
      · decide
    rcases List.mem_append.mp hl5 with hl7 | hl8
    case inr =>
      by_cases hme : d.media.isEmpty = true <;>
        [rw [if_pos hme] at hl8; rw [if_neg hme] at hl8]
      · exact absurd hl8 (by simp)
      · rcases List.mem_singleton.mp hl8 with rfl
        decide
    simp only [List.mem_cons, List.not_mem_nil, or_false] at hl7
    rcases hl7 with rfl | rfl
    · by_cases hme : d.media.isEmpty = true <;>
        [rw [if_pos hme]; rw [if_neg hme]]
      · decide
      · decide
    · decide
  · obtain ⟨hmidne, hmidcl, htyne, htynl, htysp, hdcl, hattrsane⟩ :=
      hmed (i, m) (mapFind_mem hmi)
    rcases List.mem_append.mp hli with hl1 | hl2
    case inr =>
      rcases List.mem_map.mp hl2 with ⟨a, ha, rfl⟩
      exact no_nl_append (by decide) (hattrsane a ha).1.1
    simp only [List.mem_cons, List.not_mem_nil, or_false] at hl1
    rcases hl1 with rfl | rfl | rfl | rfl
    · exact no_nl_append (no_nl_append (no_nl_append (no_nl_append (by decide) htynl)
        (by decide)) (by decide)) hdcl.1
    · decide
    · decide
    · exact no_nl_append (by decide) hmidcl.1

/-- No line of the emission contains a newline: the `getline` decomposition
of the emitted string is exactly the emitted line list. -/
theorem sdpLines_no_nl (d : Description) (hsane : SaneDescription d) :
    ∀ l ∈ sdpLines d, '\n' ∉ l := by
  obtain ⟨hpw, hbd, hmed, hdm1, hdm2, huf, hpwd, hfp, hsp, hmms, hcand, hsid⟩ := id hsane
  intro l hl
  unfold sdpLines at hl
  rcases List.mem_append.mp hl with hl1 | hle
  case inr =>
    unfold endLinesOf at hle
    by_cases hend : d.ended = true <;> [rw [if_pos hend] at hle; rw [if_neg hend] at hle]
    · rcases List.mem_singleton.mp hle with rfl
      decide
    · exact absurd hle (by simp)
  rcases List.mem_append.mp hl1 with hl2 | hlc
  case inr =>
    unfold candLinesOf at hlc
    rcases List.mem_map.mp hlc with ⟨c, hcm, rfl⟩
    exact no_nl_append (by decide) (hcand c hcm).1.1
  rcases List.mem_append.mp hl2 with hl3 | hlm
  case inr => exact mediaLines_no_nl d hsane l hlm
  exact sessionLines_no_nl d hsane l hl3

/-- The description produced by reparsing an emission: every field of the
original is reproduced except the candidate mids, which are all reattached to
the mid of the last emitted m-line section, and the media sections, which
keep their keys, types, descriptions and mids but gain the emitted
`bundle-only` attribute. -/
def reconDescription (d : Description) (t2 : DType) (sid2 : Str) : Description :=
  { type := t2, role := d.role, sessionId := sid2, iceUfrag := d.iceUfrag,
    icePwd := d.icePwd, fingerprint := d.fingerprint, dataMid := d.dataMid,
    sctpPort := d.sctpPort, maxMessageSize := d.maxMessageSize,
    media := d.media.map (fun p => (p.1, reconMedia p.2)),
    candidates := d.candidates.map (fun c => { raw := c.raw, mid := lastSectionMid d }),
    ended := d.ended }

/-- Strictly increasing media keys are distinct. -/
theorem media_keys_nodup (d : Description)
    (hpw : List.Pairwise (fun p q => p.1 < q.1) d.media) :
    (d.media.map Prod.fst).Nodup := by
  have h2 : List.Pairwise (· < ·) (d.media.map Prod.fst) :=
    List.Pairwise.map Prod.fst (fun a b h => h) hpw
  exact h2.imp Nat.ne_of_lt

/-- When the last emitted section index holds a media section, the data
section was emitted earlier. -/
theorem dataSeen_last (d : Description) (hsane : SaneDescription d) (m : Media)
    (hml : mapFind d.media.length d.media = some m) :
    dataSeen d d.media.length = true := by
  obtain ⟨hpw, hbd, _⟩ := hsane
  obtain ⟨i, hi, hfree⟩ := exists_free_index d.media (media_keys_nodup d hpw) hbd
  have hiL : i ≠ d.media.length := by
    intro he
    rw [he, hml] at hfree
    exact absurd hfree (by simp)
  unfold dataSeen
  rw [List.any_eq_true]
  exact ⟨i, List.mem_range.mpr (by omega), by rw [hfree]; rfl⟩

/-- The last pending section has a nonempty mid. -/
theorem pendingAt_last_mid_ne (d : Description) (hsane : SaneDescription d) :
    (pendingAt d d.media.length).mid ≠ [] := by
  obtain ⟨_, _, hmed, hdm1, _⟩ := hsane
  unfold pendingAt
  rcases hm : mapFind d.media.length d.media with _ | m
  · exact hdm1
  · exact (hmed (d.media.length, m) (mapFind_mem hm)).1

/-- The parse result determined by the final fold state. -/
theorem parseLines_of_foldl (lines : List Str) (t : DType) (r : Role) (sid : Str)
    (s : PState) (h : lines.foldl stepE (.ok (initPState t r sid)) = .ok s) :
    Description.parseLines lines t r sid =
      .ok ((flushCurrent s []).d, (flushCurrent s []).warnings) := by
  unfold Description.parseLines
  rw [h]

/-- C1 (amended): reparsing the emission of a sane parsed description with
`\r\n` terminators succeeds with no warnings and reproduces the type hint,
the role, the fingerprint, the ICE credentials, the data mid, the SCTP port,
the maximum message size, the media order (keys) and the media mids; the
candidate payloads are reproduced in order, but every reparsed candidate is
attached to the mid of the last emitted m-line section rather than to its
original mid. -/
theorem c1_roundtrip_amended (d : Description) (hsane : SaneDescription d)
    (t2 : DType) (r2 : Role) (sid2 : Str) :
    Description.parse (generateSdp d (str ("\r\n"))) t2 r2 sid2 =
      .ok (reconDescription d t2 sid2, []) ∧
    (reconDescription d t2 sid2).role = d.role ∧
    (reconDescription d t2 sid2).fingerprint = d.fingerprint ∧
    (reconDescription d t2 sid2).iceUfrag = d.iceUfrag ∧
    (reconDescription d t2 sid2).icePwd = d.icePwd ∧
    (reconDescription d t2 sid2).dataMid = d.dataMid ∧
    (reconDescription d t2 sid2).sctpPort = d.sctpPort ∧
    (reconDescription d t2 sid2).maxMessageSize = d.maxMessageSize ∧
    (reconDescription d t2 sid2).media.map Prod.fst = d.media.map Prod.fst ∧
    (reconDescription d t2 sid2).media.map (fun p => p.2.mid) =
      d.media.map (fun p => p.2.mid) ∧
    (reconDescription d t2 sid2).candidates.map (fun c => c.raw) =
      d.candidates.map (fun c => c.raw) ∧
    (reconDescription d t2 sid2).candidates =
      d.candidates.map (fun c => { raw := c.raw, mid := lastSectionMid d }) := by
  obtain ⟨hpw, hbd, hmed, hdm1, hdm2, huf, hpwd, hfp, hsp, hmms, hcand, hsid⟩ := id hsane
  refine ⟨?_, rfl, rfl, rfl, rfl, rfl, rfl, rfl, ?_, ?_, ?_, rfl⟩
  · have hfold : (sdpLines d).foldl stepE (.ok (initPState t2 r2 sid2)) =
        .ok { d := { chunkDesc d t2 r2 sid2 (d.media.length + 1) with
                candidates :=
                  (chunkDesc d t2 r2 sid2 (d.media.length + 1)).candidates ++
                    d.candidates.map (fun c =>
                      ({ raw := c.raw,
                         mid := (pendingAt d d.media.length).mid } : Candidate)),
                ended := d.ended },
              current := some (pendingAt d d.media.length),
              mlineIndex := d.media.length, warnings := [] } := by
      have hcs0 : chunkState d t2 r2 sid2 0 =
          { d := sessDesc d t2 r2 sid2, current := none, mlineIndex := 0,
            warnings := [] } := rfl
      unfold sdpLines
      rw [List.foldl_append, List.foldl_append, List.foldl_append,
        session_lines_state d t2 r2 sid2 hsane, ← hcs0,
        media_chunks d t2 r2 sid2 hsane, chunkState_succ]
      unfold candLinesOf
      rw [foldl_cand_lines d.candidates
          { d := chunkDesc d t2 r2 sid2 (d.media.length + 1),
            current := some (pendingAt d d.media.length),
            mlineIndex := d.media.length, warnings := [] }
          (pendingAt d d.media.length) rfl hcand,
        foldl_end_lines d _ rfl]
    rw [parse_generateSdp_eq_parseLines d t2 r2 sid2 (sdpLines_no_nl d hsane),
      parseLines_of_foldl _ _ _ _ _ hfold,
      flushCurrent_mid_ne _ [] (pendingAt d d.media.length) rfl
        (pendingAt_last_mid_ne d hsane)]
    rcases hml : mapFind d.media.length d.media with _ | m
    · have hpa : pendingAt d d.media.length =
          appPend d.dataMid ((if d.media.isEmpty then ([] : List Str) else
            [str ("bundle-only")]) ++ [str ("sendrecv")]) := by
        unfold pendingAt appPend
        rw [hml]
      have hfull : reconUpTo d d.media.length =
          d.media.map (fun p => (p.1, reconMedia p.2)) := by
        rw [← reconUpTo_succ_none d _ hml, reconUpTo_full d hpw hbd]
      simp [hpa, appPend, chunkDesc, sessDesc, reconDescription, lastSectionMid, hml,
        dataSeen_succ_none d _ hml, hfull]
    · have hpa : pendingAt d d.media.length = reconMedia m := by
        unfold pendingAt
        rw [hml]
      obtain ⟨hmne, hmcl, hmty, _⟩ := hmed (d.media.length, m) (mapFind_mem hml)
      have hds : dataSeen d d.media.length = true := dataSeen_last d hsane m hml
      have hfull : mapEmplace d.media.length (reconMedia m)
          (reconUpTo d d.media.length) =
          d.media.map (fun p => (p.1, reconMedia p.2)) := by
        rw [mapEmplace_append _ _ _ (reconUpTo_keys_lt d _),
          ← reconUpTo_succ_some d _ m hml, reconUpTo_full d hpw hbd]
      simp [hpa, (show (reconMedia m).type = m.type from rfl),
        (show (reconMedia m).mid = m.mid from rfl), hmty, chunkDesc, sessDesc,
        reconDescription, lastSectionMid, hml, dataSeen_succ_some d _ m hml, hds, hfull]
  · simp [reconDescription, List.map_map]
  · simp [reconDescription, List.map_map, reconMedia]
  · simp [reconDescription, List.map_map]

/-- Projection of a whole-string parse outcome to the description. -/
def parsedDescStr (sdp : Str) (t : DType) (r : Role) (sid : Str) : Option Description :=
  match Description.parse sdp t r sid with
  | .ok p => some p.1
  | .error _ => none

/-- A concrete sane parsed description with one media section, one candidate
and ended trickling, used to instantiate the round-trip theorem. -/
def c1w : Description :=
  { type := DType.Offer, role := Role.Active, sessionId := str ("s"),
    iceUfrag := str ("u"), icePwd := str ("p"), fingerprint := some (str ("AB:CD")),
    dataMid := str ("d"), sctpPort := some 5000, maxMessageSize := some 65536,
    media := [(0, { type := str ("video"), description := str ("X"), mid := str ("v"),
                    attributes := [str ("rtpmap:96 H264/90000")] })],
    candidates := [{ raw := str ("candidate:1 1 UDP 1 1.2.3.4 1234 typ host"),
                     mid := str ("v") }],
    ended := true }

/-- Witness for C1 (amended) at a concrete description. -/
theorem c1_roundtrip_amended_witness :
    SaneDescription c1w ∧
    (Description.parse (generateSdp c1w (str ("\r\n"))) DType.Answer Role.Passive
        (str ("9")) =
      .ok (reconDescription c1w DType.Answer (str ("9")), []) ∧
    (reconDescription c1w DType.Answer (str ("9"))).role = c1w.role ∧
    (reconDescription c1w DType.Answer (str ("9"))).fingerprint = c1w.fingerprint ∧
    (reconDescription c1w DType.Answer (str ("9"))).iceUfrag = c1w.iceUfrag ∧
    (reconDescription c1w DType.Answer (str ("9"))).icePwd = c1w.icePwd ∧
    (reconDescription c1w DType.Answer (str ("9"))).dataMid = c1w.dataMid ∧
    (reconDescription c1w DType.Answer (str ("9"))).sctpPort = c1w.sctpPort ∧
    (reconDescription c1w DType.Answer (str ("9"))).maxMessageSize =
      c1w.maxMessageSize ∧
    (reconDescription c1w DType.Answer (str ("9"))).media.map Prod.fst =
      c1w.media.map Prod.fst ∧
    (reconDescription c1w DType.Answer (str ("9"))).media.map (fun p => p.2.mid) =
      c1w.media.map (fun p => p.2.mid) ∧
    (reconDescription c1w DType.Answer (str ("9"))).candidates.map (fun c => c.raw) =
      c1w.candidates.map (fun c => c.raw) ∧
    (reconDescription c1w DType.Answer (str ("9"))).candidates =
      c1w.candidates.map (fun c => { raw := c.raw, mid := lastSectionMid c1w })) :=
  ⟨by decide, c1_roundtrip_amended c1w (by decide) DType.Answer Role.Passive (str ("9"))⟩

/-- The SDP input of the C1 counterexample: a mid-carrying video section with
a trickled candidate, followed by the data section. -/
def c1in : Str :=
  str ("m=video 9 X\r\na=mid:v\r\na=candidate:1 1 UDP 1 1.2.3.4 1234 typ host\r\nm=application 9 UDP/DTLS/SCTP webrtc-datachannel\r\na=mid:d\r\n")

/-- Counterexample to C1 as stated: parsing a well-formed input stores the
candidate under mid `v`, but reparsing the emission attaches it to the last
section's mid `d`, so the candidate list is not reproduced. -/
theorem c1_roundtrip_counterexample :
    (parsedDescStr c1in DType.Offer Role.ActPass (str ("1"))).map
        (fun d0 => d0.candidates.map (fun c => c.mid)) = some [str ("v")] ∧
    ((parsedDescStr c1in DType.Offer Role.ActPass (str ("1"))).bind (fun d0 =>
        parsedDescStr (generateSdp d0 (str ("\r\n"))) DType.Offer Role.ActPass
          (str ("1")))).map
        (fun d2 => d2.candidates.map (fun c => c.mid)) = some [str ("d")] := by
  decide
